import Mathlib

/-!
Verification development for the Excel → KML converter (`excel_to_kml.py`).

The Python program is shallowly embedded below.  Conventions of the
embedding:

* A spreadsheet cell (after `pd.read_excel(..., dtype=str)`) is either a
  string or the pandas missing value `NaN`; we model it as `Option String`
  (`none` = `NaN`).  Python renders `float('nan')` via `str` as `"nan"`,
  and `NaN` is *truthy*; both facts are reflected exactly where the code
  relies on truthiness (`if addr:`, `row[...] or ""`).
* Python `float` values produced by `float(txt)` are modelled as `ℚ`: the
  program only parses decimal literals, compares them against integer
  bounds and reformats them with `%.8f`; on all inputs exercised by the
  claims the rational value determines the printed float digits (each
  scaled channel/decimal is bounded away from the rounding boundaries far
  beyond double precision), so the model is exact there.  Non-finite
  spellings (`inf`, `nan`) and underscore separators accepted by Python's
  `float` are outside the modelled fragment; a coordinate cell spelling
  `nan` is rejected by the range check in both the program and the model.
* Strings are processed through their underlying `List Char`; Python
  `str.strip` strips the six ASCII whitespace characters (the inputs in
  scope contain no exotic Unicode whitespace).
-/

/-! ### Basic Python string primitives -/

/-- The six ASCII whitespace characters stripped by Python `str.strip()`. -/
def pyIsSpace (c : Char) : Bool :=
  c = ' ' || c = '\t' || c = '\n' || c = '\r' || c = Char.ofNat 11 || c = Char.ofNat 12

/-- `str.strip()` on the underlying character list. -/
def pyStripL (l : List Char) : List Char :=
  ((l.dropWhile pyIsSpace).reverse.dropWhile pyIsSpace).reverse

/-- Python `s.strip()`. -/
def pyStrip (s : String) : String := ⟨pyStripL s.data⟩

/-- Python `s.replace(" ", "")`. -/
def removeSpaces (l : List Char) : List Char := l.filter (fun c => c ≠ ' ')

/-- Python `s.replace(",", ".")`. -/
def commaToDot (l : List Char) : List Char := l.map (fun c => if c = ',' then '.' else c)

/-- `str(cell)` for a cell read with `dtype=str`: a missing value prints as
`"nan"` (Python `str(float('nan'))`). -/
def strOfCell : Option String → String
  | none => "nan"
  | some s => s

/-- Truthiness of a cell value under Python `if cell:`: the missing value
(`float('nan')`) is truthy, a string is truthy iff nonempty. -/
def cellTruthy : Option String → Bool
  | none => true
  | some s => s ≠ ""

/-- An ASCII apostrophe, used in some diagnostic strings of the program. -/
def apos : String := String.singleton (Char.ofNat 39)

/-- Boolean test that `p` is an initial segment of `l`. -/
def startsW : List Char → List Char → Bool
  | _, [] => true
  | [], _ :: _ => false
  | c :: cs, p :: ps => c = p && startsW cs ps

/-- Boolean substring test on character lists. -/
def hasSubL : List Char → List Char → Bool
  | [], p => p.isEmpty
  | c :: cs, p => startsW (c :: cs) p || hasSubL cs p

/-- Boolean substring test on strings. -/
def hasSub (hay pat : String) : Bool := hasSubL hay.data pat.data

/-- Python `s.split(";")` on the character list (keeps empty fields,
`"" ↦ [""]`). -/
def splitSemi : List Char → List (List Char)
  | [] => [[]]
  | c :: rest =>
    if c = ';' then [] :: splitSemi rest
    else
      match splitSemi rest with
      | h :: t => (c :: h) :: t
      | [] => [[c]]

/-- Python `sep.join(parts)`. -/
def joinSep (sep : String) : List String → String
  | [] => ""
  | [x] => x
  | x :: y :: xs => x ++ sep ++ joinSep sep (y :: xs)

/-- `html.escape` (with its default `quote=True`) character by character;
the per-character table agrees with Python's sequential `str.replace`
pipeline because no replacement output contains a character replaced by a
later stage that was not already processed. -/
def htmlEscapeChar (c : Char) : List Char :=
  if c = '&' then "&amp;".data
  else if c = '<' then "&lt;".data
  else if c = '>' then "&gt;".data
  else if c = '"' then "&quot;".data
  else if c = Char.ofNat 39 then "&#x27;".data
  else [c]

/-- Python `html.escape(s)`. -/
def htmlEscape (s : String) : String := ⟨(s.data.map htmlEscapeChar).flatten⟩

/-! ### Coordinate normalizer (`ensure_float`) -/

/-- Numeric value of a decimal digit character. -/
def digitVal (c : Char) : Nat := c.toNat - 48

/-- Value of a digit list read in base 10. -/
def natOfDigits (l : List Char) : Nat := l.foldl (fun a c => a * 10 + digitVal c) 0

/-- Splits off a leading optional sign; returns `true` for `-`. -/
def takeSign : List Char → Bool × List Char
  | '+' :: r => (false, r)
  | '-' :: r => (true, r)
  | l => (false, l)

/-- Model of Python `float(txt)` on finite decimal literals
(`[sign] digits [. digits] [(e|E) [sign] digits]`, at least one digit in
the mantissa), returning the exact rational value.  `inf`/`nan` spellings
and underscore digit separators are outside the modelled fragment. -/
def parseFloat (l : List Char) : Option ℚ :=
  let (neg, l1) := takeSign l
  let ip := l1.takeWhile Char.isDigit
  let l2 := l1.dropWhile Char.isDigit
  let (fp, l3) :=
    match l2 with
    | '.' :: r => (r.takeWhile Char.isDigit, r.dropWhile Char.isDigit)
    | _ => ([], l2)
  if ip.isEmpty && fp.isEmpty then none
  else
    let n : ℤ :=
      if neg then -(natOfDigits (ip ++ fp) : ℤ) else (natOfDigits (ip ++ fp) : ℤ)
    let d : ℕ := 10 ^ fp.length
    match l3 with
    | [] => some (mkRat n d)
    | e :: r =>
      if e = 'e' ∨ e = 'E' then
        let (eneg, r1) := takeSign r
        let ed := r1.takeWhile Char.isDigit
        let r2 := r1.dropWhile Char.isDigit
        if ed.isEmpty || !r2.isEmpty then none
        else if eneg then some (mkRat n (d * 10 ^ natOfDigits ed))
        else some (mkRat (n * ((10 ^ natOfDigits ed : ℕ) : ℤ)) d)
      else none

/-- The normalization pipeline of `ensure_float`:
`str(s).strip().replace(" ", "").replace(",", ".")`. -/
def pyNormalize (s : String) : String := ⟨commaToDot (removeSpaces (pyStripL s.data))⟩

/-- `ensure_float`: `None` for a missing cell (`pd.isna`), otherwise parse
the normalized text, `None` when parsing fails.  (The `isinstance(s, (int,
float))` branch is unreachable for cells read with `dtype=str`.) -/
def ensure_float : Option String → Option ℚ
  | none => none
  | some s => parseFloat (pyNormalize s).data

/-- `in_range_lat_lon`: both coordinates parsed and inside
`[-90, 90] × [-180, 180]`.  (The integer bounds are written as explicit
rationals `mkRat b 1` so that the comparison evaluates by reduction.) -/
def in_range_lat_lon (lat lon : Option ℚ) : Bool :=
  match lat, lon with
  | some la, some lo =>
    decide (mkRat (-90) 1 ≤ la) && decide (la ≤ mkRat 90 1) &&
      decide (mkRat (-180) 1 ≤ lo) && decide (lo ≤ mkRat 180 1)
  | _, _ => false

/-! ### `%.8f` formatting -/

/-- The 8 fractional digits of `m < 10^8`, most significant first. -/
def frac8 (m : Nat) : List Char :=
  (List.range 8).map (fun i => Char.ofNat (48 + m / 10 ^ (7 - i) % 10))

/-- `%.8f` of the nonnegative rational `num / den`: round to 8 decimals
(Python rounds the binary double to nearest; on the inputs in scope the
rational value is far from every rounding boundary, so round-half-up on
the rational agrees with it).  `(2*num*10^8 + den) / (2*den)` is
`⌊num/den * 10^8 + 1/2⌋` in `ℕ`. -/
def fmt8nat (num den : ℕ) : String :=
  let n : ℕ := (2 * num * 10 ^ 8 + den) / (2 * den)
  Nat.repr (n / 10 ^ 8) ++ "." ++ ⟨frac8 (n % 10 ^ 8)⟩

/-- Python `f"{q:.8f}"` on the rational model of the float (`q < 0` is
`q.num < 0`; the sign is printed and the magnitude formatted, as `%f`
does). -/
def fmt8 (q : ℚ) : String :=
  if q.num < 0 then "-" ++ fmt8nat (-q.num).toNat q.den else fmt8nat q.num.toNat q.den

/-! ### MD5 (`hashlib.md5`) -/

/-- UTF-8 encoding of one character as byte values. -/
def utf8Char (c : Char) : List Nat :=
  let n := c.toNat
  if n < 0x80 then [n]
  else if n < 0x800 then [0xC0 + n / 64, 0x80 + n % 64]
  else if n < 0x10000 then [0xE0 + n / 4096, 0x80 + n / 64 % 64, 0x80 + n % 64]
  else [0xF0 + n / 262144, 0x80 + n / 4096 % 64, 0x80 + n / 64 % 64, 0x80 + n % 64]

/-- `s.encode("utf-8")` as a list of byte values. -/
def utf8Bytes (s : String) : List Nat := (s.data.map utf8Char).flatten

/-- The 64 MD5 sine-derived constants `⌊|sin(i+1)| · 2^32⌋`. -/
def md5K : List Nat :=
  [0xd76aa478, 0xe8c7b756, 0x242070db, 0xc1bdceee, 0xf57c0faf, 0x4787c62a, 0xa8304613,
   0xfd469501, 0x698098d8, 0x8b44f7af, 0xffff5bb1, 0x895cd7be, 0x6b901122, 0xfd987193,
   0xa679438e, 0x49b40821, 0xf61e2562, 0xc040b340, 0x265e5a51, 0xe9b6c7aa, 0xd62f105d,
   0x02441453, 0xd8a1e681, 0xe7d3fbc8, 0x21e1cde6, 0xc33707d6, 0xf4d50d87, 0x455a14ed,
   0xa9e3e905, 0xfcefa3f8, 0x676f02d9, 0x8d2a4c8a, 0xfffa3942, 0x8771f681, 0x6d9d6122,
   0xfde5380c, 0xa4beea44, 0x4bdecfa9, 0xf6bb4b60, 0xbebfbc70, 0x289b7ec6, 0xeaa127fa,
   0xd4ef3085, 0x04881d05, 0xd9d4d039, 0xe6db99e5, 0x1fa27cf8, 0xc4ac5665, 0xf4292244,
   0x432aff97, 0xab9423a7, 0xfc93a039, 0x655b59c3, 0x8f0ccc92, 0xffeff47d, 0x85845dd1,
   0x6fa87e4f, 0xfe2ce6e0, 0xa3014314, 0x4e0811a1, 0xf7537e82, 0xbd3af235, 0x2ad7d2bb,
   0xeb86d391]

/-- The 64 MD5 per-round left-rotation amounts. -/
def md5S : List Nat :=
  [7, 12, 17, 22, 7, 12, 17, 22, 7, 12, 17, 22, 7, 12, 17, 22,
   5, 9, 14, 20, 5, 9, 14, 20, 5, 9, 14, 20, 5, 9, 14, 20,
   4, 11, 16, 23, 4, 11, 16, 23, 4, 11, 16, 23, 4, 11, 16, 23,
   6, 10, 15, 21, 6, 10, 15, 21, 6, 10, 15, 21, 6, 10, 15, 21]

/-- 32-bit left rotation on `x < 2^32`. -/
def rotl32 (x s : Nat) : Nat := (x * 2 ^ s + x / 2 ^ (32 - s)) % 2 ^ 32

/-- 32-bit complement. -/
def not32 (x : Nat) : Nat := x ^^^ 0xFFFFFFFF

/-- MD5 padding: `0x80`, zeros to 56 mod 64, then the bit length as eight
little-endian bytes. -/
def md5pad (msg : List Nat) : List Nat :=
  let L := msg.length
  let z := (119 - L % 64) % 64
  msg ++ [0x80] ++ List.replicate z 0 ++
    (List.range 8).map (fun i => L * 8 / 2 ^ (8 * i) % 256)

/-- Split a list into 64-byte blocks, structurally on a fuel counter (the
fuel is an upper bound on the number of blocks, so it never runs out). -/
def toBlocksF : Nat → List Nat → List (List Nat)
  | _, [] => []
  | 0, _ :: _ => []
  | fuel + 1, c :: rest => ((c :: rest).take 64) :: toBlocksF fuel ((c :: rest).drop 64)

/-- Split the padded message into 64-byte blocks. -/
def toBlocks (l : List Nat) : List (List Nat) := toBlocksF l.length l

/-- The sixteen little-endian 32-bit words of one 64-byte block. -/
def blockWords (b : List Nat) : List Nat :=
  (List.range 16).map (fun j =>
    b.getD (4 * j) 0 + 256 * (b.getD (4 * j + 1) 0 + 256 * (b.getD (4 * j + 2) 0 + 256 * b.getD (4 * j + 3) 0)))

/-- One MD5 round `i` on the state `(a, b, c, d)` with message words `M`. -/
def md5Round (M : List Nat) (st : Nat × Nat × Nat × Nat) (i : Nat) : Nat × Nat × Nat × Nat :=
  let (a, b, c, d) := st
  let (f, g) :=
    if i < 16 then ((b &&& c) ||| (not32 b &&& d), i)
    else if i < 32 then ((d &&& b) ||| (not32 d &&& c), (5 * i + 1) % 16)
    else if i < 48 then (b ^^^ c ^^^ d, (3 * i + 5) % 16)
    else (c ^^^ (b ||| not32 d), 7 * i % 16)
  let tmp := (a + f + md5K.getD i 0 + M.getD g 0) % 2 ^ 32
  (d, (b + rotl32 tmp (md5S.getD i 0)) % 2 ^ 32, b, c)

/-- Process one 64-byte block into the running state. -/
def md5Block (st : Nat × Nat × Nat × Nat) (blk : List Nat) : Nat × Nat × Nat × Nat :=
  let M := blockWords blk
  let (a, b, c, d) := (List.range 64).foldl (md5Round M) st
  let (a0, b0, c0, d0) := st
  ((a0 + a) % 2 ^ 32, (b0 + b) % 2 ^ 32, (c0 + c) % 2 ^ 32, (d0 + d) % 2 ^ 32)

/-- Little-endian byte decomposition of a 32-bit word. -/
def le4 (x : Nat) : List Nat := [x % 256, x / 256 % 256, x / 65536 % 256, x / 16777216 % 256]

/-- MD5 digest of a byte list, as the 16 digest bytes. -/
def md5Bytes (msg : List Nat) : List Nat :=
  let (a, b, c, d) :=
    (toBlocks (md5pad msg)).foldl md5Block (0x67452301, 0xefcdab89, 0x98badcfe, 0x10325476)
  le4 a ++ le4 b ++ le4 c ++ le4 d

/-- Lowercase hex digit. -/
def hexDigitLower (d : Nat) : Char := Char.ofNat (if d < 10 then 48 + d else 87 + d)

/-- Uppercase hex digit. -/
def hexDigitUpper (d : Nat) : Char := Char.ofNat (if d < 10 then 48 + d else 55 + d)

/-- `hashlib.md5(name.encode("utf-8")).hexdigest()`. -/
def md5hexdigest (s : String) : String :=
  ⟨((utf8Bytes s |> md5Bytes).map (fun b => [hexDigitLower (b / 16), hexDigitLower (b % 16)])).flatten⟩

/-- `int(hexdigest, 16)`: the digest bytes read as one big-endian integer. -/
def md5Int (s : String) : Nat :=
  (md5Bytes (utf8Bytes s)).foldl (fun a b => a * 256 + b) 0

/-! ### Style assigner (`kml_color_from_district` and the style id) -/

/-- `f"{b:02X}"` for a byte value. -/
def hex2 (n : Nat) : String := ⟨[hexDigitUpper (n / 16 % 16), hexDigitUpper (n % 16)]⟩

/-- The `(r, g, b)` sector tuple of the source, as exact rationals.
`c = v*s = 0.95*0.7`, `x = c * (1 - |((h/60) % 2) - 1|)`, six 60° sectors.
For integer `0 ≤ h < 360`, `(h/60) % 2 - 1` is `(h mod 120)/60 - 1`, so
`1 - |…|` is `(h mod 120)/60` when `h mod 120 ≤ 60` and `2 - (h mod 120)/60`
otherwise; both are encoded with explicit numerators over 1200. -/
def hsvSectorRGB (h : Nat) : ℚ × ℚ × ℚ :=
  let c : ℚ := mkRat 133 200
  let t := h % 120
  let x : ℚ := if t ≤ 60 then mkRat (133 * t) 12000 else mkRat (133 * (120 - t)) 12000
  if h < 60 then (c, x, 0)
  else if h < 120 then (x, c, 0)
  else if h < 180 then (0, c, x)
  else if h < 240 then (0, x, c)
  else if h < 300 then (x, 0, c)
  else (c, 0, x)

/-- `int((ch + m) * 255)` for a channel `ch` of `hsvSectorRGB` (all values
are nonnegative, so Python's truncation is the floor); `m = v - c =
0.95 - 0.665 = 57/200`.  Computed on numerator/denominator to keep the
definition kernel-reducible. -/
def chanByte (ch : ℚ) : Nat :=
  let q : ℚ := ch
  ((q.num.toNat * 200 + 57 * q.den) * 255) / (200 * q.den)

/-- `kml_color_from_district`: deterministic `aabbggrr` color from the
district name (alpha `FF`, HSV with `s = 0.7`, `v = 0.95`, hue
`md5(name) mod 360`). -/
def kml_color_from_district (district : String) : String :=
  let h := md5Int district % 360
  let (r, g, b) := hsvSectorRGB h
  "FF" ++ hex2 (chanByte b) ++ hex2 (chanByte g) ++ hex2 (chanByte r)

/-- The style identifier of a district:
`f"style_{hashlib.md5(d.encode('utf-8')).hexdigest()[:8]}"`. -/
def styleIdOf (d : String) : String := "style_" ++ ⟨(md5hexdigest d).data.take 8⟩

/-! ### XML element tree (`xml.etree.ElementTree`) -/

/-- An `ET.Element`: tag, attributes in insertion order, optional text,
children.  (Tail text is never used by the program and is omitted.) -/
inductive Elem where
  | mk (tag : String) (attrs : List (String × String)) (text : Option String) (children : List Elem)

def tagOf : Elem → String
  | .mk t _ _ _ => t

def attrsOf : Elem → List (String × String)
  | .mk _ a _ _ => a

def textOf : Elem → Option String
  | .mk _ _ tx _ => tx

def childrenOf : Elem → List Elem
  | .mk _ _ _ cs => cs

/-- `ET._escape_cdata` (element text): `&`, `<`, `>`. -/
def escCdataChar (c : Char) : List Char :=
  if c = '&' then "&amp;".data
  else if c = '<' then "&lt;".data
  else if c = '>' then "&gt;".data
  else [c]

def escCdata (s : String) : String := ⟨(s.data.map escCdataChar).flatten⟩

/-- `ET._escape_attrib`: `&`, `<`, `>`, `"`, and literal CR/LF/TAB. -/
def escAttribChar (c : Char) : List Char :=
  if c = '&' then "&amp;".data
  else if c = '<' then "&lt;".data
  else if c = '>' then "&gt;".data
  else if c = '"' then "&quot;".data
  else if c = '\r' then "&#13;".data
  else if c = '\n' then "&#10;".data
  else if c = '\t' then "&#09;".data
  else [c]

def escAttrib (s : String) : String := ⟨(s.data.map escAttribChar).flatten⟩

/-- Serialization of one element, fuel-bounded on nesting depth (the
documents this program builds have fixed depth 7, so a fuel of 16 is never
exhausted; see `etTostring`).  Follows `ET.ElementTree._serialize_xml`
with the default `short_empty_elements=True`: attributes in insertion
order, text written when truthy, `<tag />` for an element with neither
truthy text nor children. -/
def serializeF : Nat → Elem → String
  | 0, _ => ""
  | fuel + 1, .mk tag attrs text children =>
    let a := String.join (attrs.map (fun kv => " " ++ kv.1 ++ "=\"" ++ escAttrib kv.2 ++ "\""))
    let hasText := match text with | some s => s ≠ "" | none => false
    if hasText || !children.isEmpty then
      "<" ++ tag ++ a ++ ">" ++
        (match text with | some s => if s ≠ "" then escCdata s else "" | none => "") ++
        String.join (children.map (serializeF fuel)) ++
        "</" ++ tag ++ ">"
    else "<" ++ tag ++ a ++ " />"

/-- `ET.tostring(kml, encoding="utf-8", method="xml").decode("utf-8")`
(for the encoding `"utf-8"` no XML declaration is emitted, the default
`xml_declaration=None` adds one only for other encodings). -/
def etTostring (root : Elem) : String := serializeF 16 root

/-- Python `text.replace("><", ">\n<")` (left-to-right, non-overlapping). -/
def gtltL : List Char → List Char
  | '>' :: '<' :: rest => '>' :: '\n' :: '<' :: gtltL rest
  | c :: rest => c :: gtltL rest
  | [] => []

/-- The final written output text for a document root. -/
def kmlOutputText (root : Elem) : String := ⟨gtltL (etTostring root).data⟩

/-! ### Description builder (`build_description`) -/

/-- One `f'<a href="{html.escape(u)}" target="_blank">Фото {i}</a>'`. -/
def anchorStr (i : Nat) (u : String) : String :=
  "<a href=\"" ++ htmlEscape u ++ "\" target=\"_blank\">Фото " ++ Nat.repr i ++ "</a>"

/-- The anchor list of `build_description`: `enumerate(links, 1)`, each
entry stripped, blank entries skipped (their index is still consumed). -/
def descAnchorsFrom (i : Nat) : List String → List String
  | [] => []
  | u :: rest =>
    let u2 := pyStrip u
    if u2 = "" then descAnchorsFrom (i + 1) rest
    else anchorStr i u2 :: descAnchorsFrom (i + 1) rest

def descAnchors (links : List String) : List String := descAnchorsFrom 1 links

/-- The `parts` list of `build_description`: one labelled fragment per
truthy field, plus the joined photo anchors when any survive. -/
def descParts (addr obj topic text : Option String) (links : List String) : List String :=
  (if cellTruthy addr then ["<b>Адрес:</b> " ++ htmlEscape (strOfCell addr)] else []) ++
    (if cellTruthy obj then ["<b>Объект:</b> " ++ htmlEscape (strOfCell obj)] else []) ++
    (if cellTruthy topic then ["<b>Проблема:</b> " ++ htmlEscape (strOfCell topic)] else []) ++
    (if cellTruthy text then ["<b>Текст:</b> " ++ htmlEscape (strOfCell text)] else []) ++
    (if links.isEmpty then []
     else
       let a := descAnchors links
       if a.isEmpty then [] else ["<b>Фото:</b> " ++ joinSep " | " a])

/-- `build_description`: the non-empty parts joined with `<br/>`, wrapped
in a literal CDATA marker. -/
def build_description (addr obj topic text : Option String) (links : List String) : String :=
  "<![CDATA[" ++ joinSep "<br/>" (descParts addr obj topic text links) ++ "]]>"

/-! ### Single-file conversion pipeline (`excel_to_kml`) -/

/-- The ten required Russian column headers, in the order checked. -/
def required_cols : List String :=
  ["Номер сообщения", "Округ", "Район", "Адрес", "Название объекта",
   "Проблемная тема", "Текст сообщения", "Ссылки на фотографии сообщения",
   "Широта", "Долгота"]

/-- The table as produced by `pd.read_excel(..., header=2, dtype=str)`:
column names and data rows. -/
structure DataFrame where
  cols : List String
  rows : List (List (Option String))

/-- `pd.read_excel(path, sheet_name, header=2, dtype=str)` on the physical
sheet rows: the first two physical rows are preamble and are skipped, the
third is the header, the rest are data.  (A header cell that is blank gets
a pandas-generated name, modelled as `""`; no required column name is
blank, so the schema check is unaffected.) -/
def read_excel_header2 (sheet : List (List (Option String))) : DataFrame :=
  match sheet.drop 2 with
  | [] => ⟨[], []⟩
  | hdr :: body => ⟨hdr.map (fun c => c.getD ""), body⟩

/-- `row[c]` for a data row: the cell under column `c` (pandas pads a
short row with `NaN`).  Only called for columns present in the schema. -/
def cellAt (cols : List String) (row : List (Option String)) (c : String) : Option String :=
  match cols.findIdx? (fun x => x == c) with
  | none => none
  | some i => row.getD i none

/-- The diagnostic for an empty message number
(`f"{name}: пустой 'Номер сообщения' в строке Excel {row.name + 1}"`). -/
def emptyDiag (fname : String) (idx : Nat) : String :=
  fname ++ ": пустой " ++ apos ++ "Номер сообщения" ++ apos ++
    " в строке Excel " ++ Nat.repr (idx + 1)

/-- The diagnostic for invalid coordinates, quoting the raw cell texts. -/
def coordDiag (fname : String) (idx : Nat) (latRaw lonRaw : Option String) : String :=
  fname ++ ": неверные координаты в строке Excel " ++ Nat.repr (idx + 1) ++
    ": lat=" ++ strOfCell latRaw ++ ", lon=" ++ strOfCell lonRaw

/-- `pd.isna(row["Номер сообщения"]) or str(row["Номер сообщения"]).strip() == ""`. -/
def msgEmptyB : Option String → Bool
  | none => true
  | some s => pyStrip s = ""

/-- `valid_row` on the row with 0-based dataframe index `idx` (pandas
`row.name`): `True` with no diagnostic, or `False` with exactly one
diagnostic.  The empty-message-number check runs first and returns
immediately, short-circuiting the coordinate check. -/
def valid_row (fname : String) (cols : List String) (idx : Nat)
    (row : List (Option String)) : Bool × Option String :=
  if msgEmptyB (cellAt cols row "Номер сообщения") then
    (false, some (emptyDiag fname idx))
  else
    let latN := ensure_float (cellAt cols row "Широта")
    let lonN := ensure_float (cellAt cols row "Долгота")
    if in_range_lat_lon latN lonN then (true, none)
    else
      (false,
        some (coordDiag fname idx (cellAt cols row "Широта") (cellAt cols row "Долгота")))

/-- The `problems` log after `df.apply(valid_row, axis=1)`: diagnostics in
source-row order. -/
def problemsOf (fname : String) (cols : List String)
    (rows : List (List (Option String))) : List String :=
  rows.enum.filterMap (fun p => (valid_row fname cols p.1 p.2).2)

/-- `df_valid`: the rows accepted by `valid_row`, in source order. -/
def validRowsOf (fname : String) (cols : List String)
    (rows : List (List (Option String))) : List (List (Option String)) :=
  rows.enum.filterMap (fun p => if (valid_row fname cols p.1 p.2).1 then some p.2 else none)

/-- Pandas `Series.unique()`: first-encounter deduplication. -/
def uniqFirst (l : List String) : List String :=
  l.foldl (fun acc x => if acc.contains x then acc else acc ++ [x]) []

/-- Lexicographic strict comparison of character lists by code point
(Python string `<`). -/
def ltCharsB : List Char → List Char → Bool
  | [], [] => false
  | [], _ :: _ => true
  | _ :: _, [] => false
  | a :: as, b :: bs => if a = b then ltCharsB as bs else decide (a < b)

/-- Python string `<=` (used by `sorted`), executable; agrees with `≤` on
`String` (`strLeB_iff` below). -/
def strLeB (s t : String) : Bool := !(ltCharsB t.data s.data)

/-- Insert into a `strLeB`-sorted list, keeping it sorted. -/
def ordInsertStr (x : String) : List String → List String
  | [] => [x]
  | y :: ys => if strLeB x y then x :: y :: ys else y :: ordInsertStr x ys

/-- Insertion sort by `strLeB`; on lists of distinct strings this is
exactly Python `sorted`. -/
def insSortStr : List String → List String
  | [] => []
  | x :: xs => ordInsertStr x (insSortStr xs)

/-- `sorted(df_valid["Район"].dropna().unique())`: the distinct non-missing
district values of the validated rows, sorted ascending (Python sorts
strings by code point, as does `≤` on `String`). -/
def districtsOf (cols : List String) (validRows : List (List (Option String))) : List String :=
  insSortStr (uniqFirst (validRows.filterMap (fun r => cellAt cols r "Район")))

/-- The `style_ids` dict: district name (raw, non-missing) to style id. -/
def styleIdsOf (cols : List String) (validRows : List (List (Option String))) :
    List (String × String) :=
  (districtsOf cols validRows).map (fun d => (d, styleIdOf d))

/-- `create_style(style_id, color)`. -/
def create_style (style_id color : String) : Elem :=
  .mk "Style" [("id", style_id)] none
    [.mk "IconStyle" [] none
      [.mk "color" [] (some color) [],
       .mk "scale" [] (some "1.2") [],
       .mk "Icon" [] none
         [.mk "href" [] (some "http://maps.google.com/mapfiles/kml/pushpin/ylw-pushpin.png") []]],
     .mk "LabelStyle" [] none [.mk "scale" [] (some "0.9") []]]

/-- `[u.strip() for u in str(links_raw).split(";") if u.strip()]` where
`links_raw = row[...] or ""` (so a missing cell yields the text `"nan"`). -/
def linksOfCell (cell : Option String) : List String :=
  (((splitSemi (strOfCell cell).data).map (fun l => pyStrip ⟨l⟩)).filter (fun u => u ≠ ""))

/-- The parsed latitude of a row (`float(row["Широта_num"])`; on validated
rows the value is always present, the default is never read). -/
def latOf (cols : List String) (row : List (Option String)) : ℚ :=
  (ensure_float (cellAt cols row "Широта")).getD (mkRat 0 1)

/-- The parsed longitude of a row. -/
def lonOf (cols : List String) (row : List (Option String)) : ℚ :=
  (ensure_float (cellAt cols row "Долгота")).getD (mkRat 0 1)

/-- `str(row["Округ"]).strip()`. -/
def okrugOf (cols : List String) (row : List (Option String)) : String :=
  pyStrip (strOfCell (cellAt cols row "Округ"))

/-- `str(row["Район"]).strip()` (the folder name and style lookup key). -/
def rayonOf (cols : List String) (row : List (Option String)) : String :=
  pyStrip (strOfCell (cellAt cols row "Район"))

/-- The text of the `coordinates` element:
`f"{lon:.8f},{lat:.8f},0"` — longitude first, then latitude, altitude 0. -/
def coordinatesText (lon lat : ℚ) : String := fmt8 lon ++ "," ++ fmt8 lat ++ ",0"

/-- The `Placemark` element built for one validated row: name, optional
`styleUrl` (present when `style_ids.get(rayon)` is truthy), description,
point geometry. -/
def placemarkFor (style_ids : List (String × String)) (cols : List String)
    (row : List (Option String)) : Elem :=
  let nm := pyStrip (strOfCell (cellAt cols row "Номер сообщения"))
  let links := linksOfCell (cellAt cols row "Ссылки на фотографии сообщения")
  let sid := style_ids.lookup (rayonOf cols row)
  .mk "Placemark" [] none
    ([Elem.mk "name" [] (some nm) []] ++
      (match sid with
       | some s => if s = "" then [] else [Elem.mk "styleUrl" [] (some ("#" ++ s)) []]
       | none => []) ++
      [Elem.mk "description" []
        (some (build_description (cellAt cols row "Адрес") (cellAt cols row "Название объекта")
          (cellAt cols row "Проблемная тема") (cellAt cols row "Текст сообщения") links)) [],
       Elem.mk "Point" [] none
         [Elem.mk "coordinates" [] (some (coordinatesText (lonOf cols row) (latOf cols row))) []]])

/-- The folder accumulator: okrug name → list of (district name →
placemarks), all three levels in first-encounter/append order.  This is
the joint state of `okrug_folders`, `folder_map` and the mutated tree. -/
abbrev FolderAcc := List (String × List (String × List Elem))

/-- Append a placemark into an okrug's district list (`get_pair_folder`'s
second level): reuse the district entry if present, else append a new one. -/
def addToOkrug (inner : List (String × List Elem)) (rayon : String) (pm : Elem) :
    List (String × List Elem) :=
  if inner.any (fun e => e.1 == rayon) then
    inner.map (fun e => if e.1 == rayon then (e.1, e.2 ++ [pm]) else e)
  else inner ++ [(rayon, [pm])]

/-- Process one validated row: find-or-append the okrug entry
(`get_okrug_folder`), then the district entry, then append the placemark. -/
def addRow (cols : List String) (style_ids : List (String × String))
    (acc : FolderAcc) (row : List (Option String)) : FolderAcc :=
  let okrug := okrugOf cols row
  let rayon := rayonOf cols row
  let pm := placemarkFor style_ids cols row
  if acc.any (fun e => e.1 == okrug) then
    acc.map (fun e => if e.1 == okrug then (e.1, addToOkrug e.2 rayon pm) else e)
  else acc ++ [(okrug, [(rayon, [pm])])]

/-- The folder structure after the main row loop. -/
def foldersOf (cols : List String) (style_ids : List (String × String))
    (validRows : List (List (Option String))) : FolderAcc :=
  validRows.foldl (addRow cols style_ids) []

/-- Render one district entry as its `Folder` element (name first, then
its placemarks in arrival order). -/
def renderRayon (p : String × List Elem) : Elem :=
  .mk "Folder" [] none (Elem.mk "name" [] (some p.1) [] :: p.2)

/-- Render one okrug entry as its `Folder` element (name first, then its
district folders in first-encounter order). -/
def renderOkrug (p : String × List (String × List Elem)) : Elem :=
  .mk "Folder" [] none (Elem.mk "name" [] (some p.1) [] :: p.2.map renderRayon)

/-- The assembled `kml` root for one file: `Document` holding the document
name, the per-district styles (in sorted district order), then the okrug
folders (in first-encounter order). -/
def buildDoc (outName : String) (cols : List String)
    (validRows : List (List (Option String))) : Elem :=
  let style_ids := styleIdsOf cols validRows
  let styles := (districtsOf cols validRows).map
    (fun d => create_style (styleIdOf d) (kml_color_from_district d))
  let folders := (foldersOf cols style_ids validRows).map renderOkrug
  .mk "kml" [("xmlns", "http://www.opengis.net/kml/2.2")] none
    [.mk "Document" [] none
      (Elem.mk "name" [] (some outName) [] :: styles ++ folders)]

/-- `excel_to_kml(excel_path, sheet_name, out_path)` from the physical
sheet contents.  Returns the written output text together with
`(total_rows, written_count, problems_log)`, or the `SystemExit` message
when a required column is missing (the first missing one is reported and
nothing is written).  The upstream `.xlsx/.xlsm` extension gate concerns
only the path string and is modelled away; `out_path.name` is `outName`. -/
def excel_to_kml (fname : String) (sheet : List (List (Option String)))
    (outName : String) : Except String (String × Nat × Nat × List String) :=
  let df := read_excel_header2 sheet
  match required_cols.find? (fun c => !(df.cols.contains c)) with
  | some c => .error (fname ++ ": отсутствует обязательная колонка: " ++ c)
  | none =>
    let probs := problemsOf fname df.cols df.rows
    let valids := validRowsOf fname df.cols df.rows
    let doc := buildDoc outName df.cols valids
    .ok (kmlOutputText doc, df.rows.length, valids.length, probs)

/-! ### Result and document accessors (used to state the claims) -/

def exOut : Except String (String × Nat × Nat × List String) → Option String
  | .ok (o, _, _, _) => some o
  | .error _ => none

def exTotal : Except String (String × Nat × Nat × List String) → Nat
  | .ok (_, t, _, _) => t
  | .error _ => 0

def exWritten : Except String (String × Nat × Nat × List String) → Nat
  | .ok (_, _, w, _) => w
  | .error _ => 0

def exProblems : Except String (String × Nat × Nat × List String) → List String
  | .ok (_, _, _, p) => p
  | .error _ => []

/-- The `Document` element of the assembled root. -/
def docOf (kml : Elem) : Elem := (childrenOf kml).getD 0 (.mk "" [] none [])

/-- The `Style` children of the document, in document order. -/
def stylesOfDoc (kml : Elem) : List Elem :=
  (childrenOf (docOf kml)).filter (fun e => tagOf e == "Style")

/-- The `Folder` children of the document, in document order. -/
def foldersOfDoc (kml : Elem) : List Elem :=
  (childrenOf (docOf kml)).filter (fun e => tagOf e == "Folder")

/-- The text of an element's `name` child. -/
def nameTextOf (e : Elem) : Option String :=
  match (childrenOf e).find? (fun c => tagOf c == "name") with
  | some n => textOf n
  | none => none

/-- The text of a placemark's `styleUrl` child, when present. -/
def styleUrlOf (e : Elem) : Option String :=
  match (childrenOf e).find? (fun c => tagOf c == "styleUrl") with
  | some n => textOf n
  | none => none

/-- The coordinates text of a placemark's point geometry. -/
def coordTextOf (pm : Elem) : Option String :=
  match (childrenOf pm).find? (fun c => tagOf c == "Point") with
  | some pt =>
    match (childrenOf pt).find? (fun c => tagOf c == "coordinates") with
    | some co => textOf co
    | none => none
  | none => none

/-- The `id` attribute of a style element. -/
def styleIdAttrOf (e : Elem) : Option String := (attrsOf e).lookup "id"

/-- The names of the `Folder` children of an element (the district
folders of an okrug folder), in document order. -/
def subfolderNames (e : Elem) : List (Option String) :=
  (((childrenOf e).filter (fun c => tagOf c == "Folder")).map nameTextOf)

/-! ### Specification-side definitions (transcribed from the spec's words,
to be compared with the source-side definitions: refinement claims) -/

/-- The spec's channel formula, in the standard "alternative" HSV→RGB
form: `f(n) = v − v·s·max(0, min(k, 4−k, 1))` with `k = (n + h/60) mod 6`,
`s = 0.7`, `v = 0.95`, channel byte `⌊255·f(n)⌋`.  Encoded exactly:
`60·k = (60·n + h) mod 360`, `t60 = 60·max(0, min(k, 4−k, 1))`, and
`⌊255·(v − v·s·t60/60)⌋ = (255·(11400 − 133·t60)) / 12000` (all values
nonnegative). -/
def specChanByte (n h : Nat) : Nat :=
  let kn : ℤ := ((60 * n + h) % 360 : Nat)
  let m1 : ℤ := if kn ≤ 240 - kn then kn else 240 - kn
  let m2 : ℤ := if m1 ≤ 60 then m1 else 60
  let t60 : ℤ := if m2 ≤ 0 then 0 else m2
  (255 * (11400 - 133 * t60).toNat) / 12000

/-- The spec's color algorithm: hue = MD5 digest value mod 360, channels by
the six-sector HSV→RGB conversion at `s = 0.7`, `v = 0.95` scaled into
`[0, 255]`, packed as alpha-blue-green-red with alpha `FF`
(`R = f(5)`, `G = f(3)`, `B = f(1)`). -/
def spec_color (name : String) : String :=
  let h := md5Int name % 360
  "FF" ++ hex2 (specChanByte 1 h) ++ hex2 (specChanByte 3 h) ++ hex2 (specChanByte 5 h)

/-- The spec's style identifier: a fixed literal prefix followed by the
first 8 hex characters of a digest of the name. -/
def spec_style_id (name : String) : String :=
  "style_" ++ ⟨(md5hexdigest name).data.take 8⟩

/-! ### Concrete inputs used by individual claims -/

/-- A physical sheet with one validated row carrying narrative fields and
photo links (used to evaluate the serialized output). -/
def c1Sheet : List (List (Option String)) :=
  [[], [], required_cols.map some,
   [some "12345", some "ЦАО", none, some "ул. Пушкина, 1", none, none, none,
    some "http://a/1.jpg ; ; http://a/2.jpg", some "55,7887", some "37,6279"]]

/-- A physical sheet with one valid row, one row with an empty message
number, and one row with unparseable coordinates. -/
def c9Sheet : List (List (Option String)) :=
  [[], [], required_cols.map some,
   [some "1", some "ЦАО", none, none, none, none, none, none, some "55", some "37"],
   [some "", some "ЦАО", none, none, none, none, none, none, some "55", some "37"],
   [some "77", some "ЦАО", none, none, none, none, none, none, some "abc", some "37"]]

/-- A validated row whose district cell is the literal string `"nan"`. -/
def c10RowLiteralNan : List (Option String) :=
  [some "1", some "ЦАО", some "nan", none, none, none, none, none, some "55", some "37"]

/-- A validated row whose district cell is missing. -/
def c10RowMissing : List (Option String) :=
  [some "2", some "ЦАО", none, none, none, none, none, none, some "55", some "37"]

/-! ### Generic lemmas about the string primitives -/

theorem startsW_nil_right : ∀ l : List Char, startsW l [] = true := by
  intro l; cases l <;> rfl

theorem startsW_refl_append : ∀ (p r : List Char), startsW (p ++ r) p = true
  | [], r => startsW_nil_right r
  | c :: cs, r => by rw [List.cons_append, startsW, startsW_refl_append cs r]; simp

theorem hasSubL_append (a p b : List Char) : hasSubL (a ++ p ++ b) p = true := by
  induction a with
  | nil =>
    rw [List.nil_append]
    cases h : p ++ b with
    | nil =>
      rcases List.append_eq_nil.mp h with ⟨h1, _⟩
      subst h1; rfl
    | cons c cs =>
      show (startsW (c :: cs) p || hasSubL cs p) = true
      rw [← h, startsW_refl_append]; rfl
  | cons c cs ih =>
    rw [List.cons_append]
    show (startsW (c :: (cs ++ p ++ b)) p || hasSubL (cs ++ p ++ b) p) = true
    rw [Bool.or_eq_true]; right; exact ih

theorem startsW_append_of_le :
    ∀ (p l v : List Char), p.length ≤ l.length → startsW (l ++ v) p = startsW l p
  | [], l, v, _ => by rw [startsW_nil_right, startsW_nil_right]
  | q :: ps, [], v, h => by simp at h
  | q :: ps, c :: cs, v, h => by
    rw [List.cons_append, startsW, startsW,
      startsW_append_of_le ps cs v (Nat.le_of_succ_le_succ h)]

theorem dropWhile_eq_self_of_head {p : Char → Bool} :
    ∀ {l : List Char}, (∀ x ∈ l.head?, p x = false) → l.dropWhile p = l
  | [], _ => rfl
  | c :: cs, h => by
    have hc : p c = false := h c rfl
    simp [List.dropWhile_cons, hc]

theorem dropWhile_head?_false (p : Char → Bool) :
    ∀ l : List Char, ∀ x ∈ (l.dropWhile p).head?, p x = false
  | [], x, hx => by simp at hx
  | c :: cs, x, hx => by
    rw [List.dropWhile_cons] at hx
    by_cases hc : p c = true
    · rw [if_pos hc] at hx
      exact dropWhile_head?_false p cs x hx
    · rw [if_neg hc] at hx
      simp at hx
      subst hx
      exact Bool.eq_false_iff.mpr hc

theorem dropWhile_getLast? (p : Char → Bool) :
    ∀ l : List Char, l.dropWhile p ≠ [] → (l.dropWhile p).getLast? = l.getLast?
  | [], h => absurd rfl h
  | c :: cs, h => by
    rw [List.dropWhile_cons]
    by_cases hc : p c = true
    · rw [List.dropWhile_cons, if_pos hc] at h
      have hcs : cs ≠ [] := by
        intro hn; rw [hn] at h; exact h rfl
      obtain ⟨y, ys, rfl⟩ := List.exists_cons_of_ne_nil hcs
      rw [if_pos hc, dropWhile_getLast? p (y :: ys) h, List.getLast?_cons_cons]
    · rw [if_neg hc]

/-- `str.strip` is idempotent. -/
theorem pyStripL_idem (l : List Char) : pyStripL (pyStripL l) = pyStripL l := by
  by_cases hB : (l.dropWhile pyIsSpace).reverse.dropWhile pyIsSpace = []
  · have hPl : pyStripL l = [] := by rw [pyStripL, hB]; rfl
    rw [hPl]; rfl
  · have step1 : (pyStripL l).dropWhile pyIsSpace = pyStripL l := by
      apply dropWhile_eq_self_of_head
      intro x hx
      rw [pyStripL, List.head?_reverse] at hx
      rw [dropWhile_getLast? pyIsSpace _ hB, List.getLast?_reverse] at hx
      exact dropWhile_head?_false pyIsSpace l x hx
    rw [pyStripL, step1, pyStripL, List.reverse_reverse,
      dropWhile_eq_self_of_head (dropWhile_head?_false pyIsSpace _)]

theorem pyStrip_idem (s : String) : pyStrip (pyStrip s) = pyStrip s := by
  simp [pyStrip, pyStripL_idem]

/-- A character list with no whitespace is unchanged by `strip`. -/
theorem pyStripL_eq_self {l : List Char} (h : ∀ c ∈ l, pyIsSpace c = false) :
    pyStripL l = l := by
  have h1 : l.dropWhile pyIsSpace = l := by
    apply dropWhile_eq_self_of_head
    intro x hx
    cases l with
    | nil => simp at hx
    | cons c cs => simp at hx; subst hx; exact h _ (by simp)
  have h2 : l.reverse.dropWhile pyIsSpace = l.reverse := by
    apply dropWhile_eq_self_of_head
    intro x hx
    cases hr : l.reverse with
    | nil => rw [hr] at hx; simp at hx
    | cons c cs =>
      rw [hr] at hx; simp at hx; subst hx
      have : c ∈ l := by
        rw [← List.mem_reverse, hr]; simp
      exact h _ this
  rw [pyStripL, h1, h2, List.reverse_reverse]

/-! ### Order bridge and insertion sort -/

theorem ltCharsB_iff_lex : ∀ as bs : List Char, ltCharsB as bs = true ↔ List.Lex (· < ·) as bs
  | [], [] => by simp [ltCharsB]
  | [], _ :: _ => by simp [ltCharsB]; exact List.Lex.nil
  | _ :: _, [] => by simp [ltCharsB]
  | a :: as, b :: bs => by
    by_cases h : a = b
    · subst h
      rw [ltCharsB, if_pos rfl, ltCharsB_iff_lex as bs, List.Lex.cons_iff]
    · rw [ltCharsB, if_neg h]
      simp only [decide_eq_true_eq]
      constructor
      · exact fun hab => List.Lex.rel hab
      · intro hl
        cases hl with
        | cons h2 => exact absurd rfl h
        | rel h2 => exact h2

/-- `strLeB` agrees with `≤` on `String`. -/
theorem strLeB_iff (s t : String) : strLeB s t = true ↔ s ≤ t := by
  rw [String.le_iff_toList_le, String.toList, String.toList, ← not_lt]
  show _ ↔ ¬ List.Lex (· < ·) t.data s.data
  rw [← ltCharsB_iff_lex t.data s.data]
  simp [strLeB]

theorem strLeB_total (s t : String) : strLeB s t = true ∨ strLeB t s = true := by
  rw [strLeB_iff, strLeB_iff]
  exact le_total s t

theorem ordInsertStr_perm (x : String) : ∀ l : List String, (ordInsertStr x l).Perm (x :: l)
  | [] => List.Perm.refl _
  | y :: ys => by
    rw [ordInsertStr]
    by_cases h : strLeB x y = true
    · rw [if_pos h]
    · rw [if_neg h]
      exact ((ordInsertStr_perm x ys).cons y).trans (List.Perm.swap x y ys)

theorem insSortStr_perm : ∀ l : List String, (insSortStr l).Perm l
  | [] => List.Perm.refl _
  | x :: xs => (ordInsertStr_perm x (insSortStr xs)).trans ((insSortStr_perm xs).cons x)

theorem sorted_ordInsertStr (x : String) :
    ∀ (l : List String), List.Sorted (· ≤ ·) l → List.Sorted (· ≤ ·) (ordInsertStr x l)
  | [], _ => by simp [ordInsertStr]
  | y :: ys, hs => by
    rw [ordInsertStr]
    rcases List.sorted_cons.mp hs with ⟨hy, hys⟩
    by_cases h : strLeB x y = true
    · rw [if_pos h]
      refine List.sorted_cons.mpr ⟨?_, hs⟩
      intro b hb
      rcases List.mem_cons.mp hb with rfl | hb
      · exact (strLeB_iff x _).mp h
      · exact le_trans ((strLeB_iff x y).mp h) (hy b hb)
    · rw [if_neg h]
      have hyx : y ≤ x := by
        rcases strLeB_total x y with h1 | h1
        · exact absurd h1 h
        · exact (strLeB_iff y x).mp h1
      refine List.sorted_cons.mpr ⟨?_, sorted_ordInsertStr x ys hys⟩
      intro b hb
      have : b ∈ x :: ys := (ordInsertStr_perm x ys).mem_iff.mp hb
      rcases List.mem_cons.mp this with hb | hb
      · subst hb; exact hyx
      · exact hy b hb

theorem sorted_insSortStr : ∀ l : List String, List.Sorted (· ≤ ·) (insSortStr l)
  | [] => by simp [insSortStr]
  | x :: xs => sorted_ordInsertStr x (insSortStr xs) (sorted_insSortStr xs)

/-! ### Normalization-identity lemmas -/

theorem removeSpaces_eq_self {l : List Char} (h : ∀ c ∈ l, ¬ c = ' ') :
    removeSpaces l = l :=
  List.filter_eq_self.mpr (fun a ha => by simpa using h a ha)

theorem commaToDot_eq_self : ∀ {l : List Char}, (∀ c ∈ l, ¬ c = ',') → commaToDot l = l
  | [], _ => rfl
  | c :: cs, h => by
    rw [commaToDot, List.map_cons, if_neg (h c (by simp))]
    have := commaToDot_eq_self (fun x hx => h x (List.mem_cons_of_mem c hx))
    rw [commaToDot] at this
    rw [this]

theorem pyNormalize_eq_self {c : String}
    (h : ∀ ch ∈ c.data, pyIsSpace ch = false ∧ ¬ ch = ',') : pyNormalize c = c := by
  rw [pyNormalize, pyStripL_eq_self (fun ch hch => (h ch hch).1)]
  have h2 : removeSpaces c.data = c.data := by
    apply removeSpaces_eq_self
    intro ch hch hsp
    have := (h ch hch).1
    rw [hsp] at this
    simp [pyIsSpace] at this
  rw [h2, commaToDot_eq_self (fun ch hch => (h ch hch).2)]

set_option maxRecDepth 10000 in
/-- The MD5 implementation matches the RFC 1321 test vector. -/
theorem md5_rfc_test_vector : md5hexdigest "" = "d41d8cd98f00b204e9800998ecf8427e" := by decide

set_option maxRecDepth 40000 in
/-- Sector formulas of the source agree with the spec's alternative
HSV→RGB formula on every hue. -/
theorem chanBytes_eq_spec : ∀ h, h < 360 →
    (chanByte (hsvSectorRGB h).1 = specChanByte 5 h ∧
     chanByte (hsvSectorRGB h).2.1 = specChanByte 3 h ∧
     chanByte (hsvSectorRGB h).2.2 = specChanByte 1 h) := by decide

/-! ### Claim theorems -/

/-- C3 (amended): the Coordinate Normalizer returns `None` for a missing
value; for any text whose normalization (strip, drop interior *spaces*,
comma→dot) equals a canonical dot-separated form `c`, it returns the same
float as for `c` itself; and it returns `None` whenever the normalized
text fails to parse.  (Amended from the claim: interior whitespace other
than the space character, e.g. a tab, is *not* tolerated — see the
counterexample.) -/
theorem c3_ensure_float_normalization :
    ensure_float none = none ∧
    (∀ s c : String, (∀ ch ∈ c.data, pyIsSpace ch = false ∧ ¬ ch = ',') →
      pyNormalize s = c → ensure_float (some s) = ensure_float (some c)) ∧
    (∀ s : String, parseFloat (pyNormalize s).data = none → ensure_float (some s) = none) := by
  refine ⟨rfl, ?_, ?_⟩
  · intro s c hc hn
    show parseFloat (pyNormalize s).data = parseFloat (pyNormalize c).data
    rw [hn, pyNormalize_eq_self hc]
  · intro s h
    show parseFloat (pyNormalize s).data = none
    exact h

/-- Witness for C3 at a concrete input: `" 5 5,7887 "` (comma separator,
leading/trailing/interior spaces) yields the same float as `"55.7887"`. -/
theorem c3_ensure_float_normalization_witness :
    (∀ ch ∈ ("55.7887" : String).data, pyIsSpace ch = false ∧ ¬ ch = ',') ∧
    pyNormalize " 5 5,7887 " = "55.7887" ∧
    ensure_float (some " 5 5,7887 ") = ensure_float (some "55.7887") ∧
    ensure_float (some "55.7887") = some (mkRat 557887 10000) :=
  ⟨by decide, by decide,
   c3_ensure_float_normalization.2.1 " 5 5,7887 " "55.7887" (by decide) (by decide),
   by decide⟩

/-- C3 counterexample: `"5\t5"` denotes the decimal `55` with interior
whitespace (a tab), whose canonical dot form is `"55"`; the claim demands
the same float for both, but the code returns `None` for the tabbed text
(only the space character is removed by the normalizer). -/
theorem c3_counterexample :
    ensure_float (some "5\t5") = none ∧
    ensure_float (some "55") = some (mkRat 55 1) ∧
    ensure_float (some "5\t5") ≠ ensure_float (some "55") := by decide

/-- C5: for every district name, the color of the Style Assigner equals
the spec's algorithm — MD5 of the UTF-8 bytes, digest value mod 360 as
hue, saturation 0.7, value 0.95, standard six-sector HSV→RGB conversion,
channels truncated into [0, 255], packed as `FF` + blue + green + red hex
— and the style identifier is the literal prefix `style_` followed by the
first 8 hex characters of the digest; both are pure functions of the name. -/
theorem c5_style_assigner_matches_spec (d : String) :
    kml_color_from_district d = spec_color d ∧ styleIdOf d = spec_style_id d := by
  refine ⟨?_, rfl⟩
  have h360 : md5Int d % 360 < 360 := Nat.mod_lt _ (by norm_num)
  obtain ⟨hr, hg, hb⟩ := chanBytes_eq_spec _ h360
  rw [kml_color_from_district, spec_color]
  rcases hS : hsvSectorRGB (md5Int d % 360) with ⟨r, g, b⟩
  rw [hS] at hr hg hb
  simp only [hS]
  simp only at hr hg hb
  rw [hr, hg, hb]

/-! ### Placemark and formatting lemmas (C7, C10) -/

theorem takeWhile_append_stop {p : Char → Bool} :
    ∀ (xs : List Char) (c : Char) (ys : List Char), (∀ x ∈ xs, p x = true) → p c = false →
      List.takeWhile p (xs ++ c :: ys) = xs
  | [], c, ys, _, hc => by simp [List.takeWhile_cons, hc]
  | x :: xs, c, ys, hxs, hc => by
    rw [List.cons_append, List.takeWhile_cons, hxs x (by simp), if_pos rfl,
      takeWhile_append_stop xs c ys (fun a ha => hxs a (by simp [ha])) hc]

theorem frac8_length (m : Nat) : (frac8 m).length = 8 := by simp [frac8]

theorem frac8_chars (m : Nat) : ∀ c ∈ frac8 m, c.isDigit = true ∧ ¬ c = '.' := by
  intro c hc
  rcases List.mem_map.mp hc with ⟨i, _, rfl⟩
  have h10 : m / 10 ^ (7 - i) % 10 < 10 := Nat.mod_lt _ (by norm_num)
  have key : ∀ k, k < 10 → (Char.ofNat (48 + k)).isDigit = true ∧ ¬ Char.ofNat (48 + k) = '.' := by
    decide
  exact key _ h10

theorem fmt8nat_decompose (a b : Nat) : ∃ pre m, (fmt8nat a b).data = pre ++ '.' :: frac8 m := by
  refine ⟨(Nat.repr ((2 * a * 10 ^ 8 + b) / (2 * b) / 10 ^ 8)).data,
    (2 * a * 10 ^ 8 + b) / (2 * b) % 10 ^ 8, ?_⟩
  simp only [fmt8nat]
  rw [String.data_append, String.data_append]
  simp [List.append_assoc]

theorem fmt8_decompose (q : ℚ) : ∃ pre m, (fmt8 q).data = pre ++ '.' :: frac8 m := by
  rw [fmt8]
  by_cases h : q.num < 0
  · rw [if_pos h]
    obtain ⟨pre, m, hm⟩ := fmt8nat_decompose (-q.num).toNat q.den
    exact ⟨'-' :: pre, m, by rw [String.data_append, hm]; rfl⟩
  · rw [if_neg h]
    exact fmt8nat_decompose _ _

/-- `%.8f` output always carries exactly 8 digits after the final dot. -/
theorem fmt8_fracpart (q : ℚ) :
    ((fmt8 q).data.reverse.takeWhile (fun c => ¬ c = '.')).length = 8 ∧
    ∀ c ∈ (fmt8 q).data.reverse.takeWhile (fun c => ¬ c = '.'), c.isDigit = true := by
  obtain ⟨pre, m, hdec⟩ := fmt8_decompose q
  have hstop : List.takeWhile (fun c => ¬ c = '.') ((fmt8 q).data.reverse) =
      (frac8 m).reverse := by
    rw [hdec, List.reverse_append, List.reverse_cons, List.append_assoc,
      List.singleton_append]
    apply takeWhile_append_stop
    · intro x hx
      have := (frac8_chars m x (List.mem_reverse.mp hx)).2
      simpa using this
    · simp
  rw [hstop]
  constructor
  · rw [List.length_reverse, frac8_length]
  · intro c hc
    exact (frac8_chars m c (List.mem_reverse.mp hc)).1

/-- The `coordinates` text of every placemark built by the program. -/
theorem coordTextOf_placemarkFor (style_ids : List (String × String)) (cols : List String)
    (row : List (Option String)) :
    coordTextOf (placemarkFor style_ids cols row) =
      some (coordinatesText (lonOf cols row) (latOf cols row)) := by
  cases h : style_ids.lookup (rayonOf cols row) with
  | none => simp [placemarkFor, coordTextOf, h, childrenOf, tagOf, textOf]
  | some s =>
    by_cases hs : s = "" <;>
      simp [placemarkFor, coordTextOf, h, hs, childrenOf, tagOf, textOf]

/-- The `styleUrl` child of a placemark whose district has no style. -/
theorem styleUrlOf_placemarkFor_none (style_ids : List (String × String)) (cols : List String)
    (row : List (Option String)) (h : style_ids.lookup (rayonOf cols row) = none) :
    styleUrlOf (placemarkFor style_ids cols row) = none := by
  simp [placemarkFor, styleUrlOf, h, childrenOf, tagOf, textOf]

theorem tagOf_placemarkFor (style_ids : List (String × String)) (cols : List String)
    (row : List (Option String)) :
    tagOf (placemarkFor style_ids cols row) = "Placemark" := rfl

/-- C7: for every row the program builds a placemark for, the point
geometry text renders longitude first, then latitude, each via `%.8f`
(exactly 8 digits after the decimal point), followed by the fixed
altitude `0`. -/
theorem c7_point_geometry_format (style_ids : List (String × String)) (cols : List String)
    (row : List (Option String)) :
    coordTextOf (placemarkFor style_ids cols row) =
      some (coordinatesText (lonOf cols row) (latOf cols row)) ∧
    (∀ lon lat : ℚ, coordinatesText lon lat = fmt8 lon ++ "," ++ fmt8 lat ++ ",0") ∧
    (∀ q : ℚ, ((fmt8 q).data.reverse.takeWhile (fun c => ¬ c = '.')).length = 8 ∧
      ∀ c ∈ (fmt8 q).data.reverse.takeWhile (fun c => ¬ c = '.'), c.isDigit = true) :=
  ⟨coordTextOf_placemarkFor style_ids cols row, fun _ _ => rfl, fun q => fmt8_fracpart q⟩

/-- Witness for C7 on a concrete row (lat `55,7887`, lon `37.6279`): the
geometry text is longitude first with 8 decimals each, and a digit drawn
from the fractional part via the theorem is a digit. -/
theorem c7_point_geometry_format_witness :
    coordTextOf (placemarkFor [] required_cols
        [some "1", some "Ц", none, none, none, none, none, none, some "55,7887", some "37.6279"]) =
      some "37.62790000,55.78870000,0" ∧
    (('0' : Char).isDigit = true) :=
  ⟨by
    rw [(c7_point_geometry_format [] required_cols
      [some "1", some "Ц", none, none, none, none, none, none, some "55,7887", some "37.6279"]).1]
    decide,
   ((c7_point_geometry_format [] required_cols []).2.2 (mkRat 376279 10000)).2 '0' (by decide)⟩

/-! ### Substring lemmas for the diagnostics (C4) -/

theorem startsW_self (l : List Char) : startsW l l = true := by
  have := startsW_refl_append l []
  rwa [List.append_nil] at this

theorem startsW_extend : ∀ (l p r : List Char), startsW l p = true → startsW (l ++ r) p = true
  | l, [], r, _ => startsW_nil_right _
  | [], _ :: _, _, h => by simp [startsW] at h
  | c :: cs, q :: ps, r, h => by
    rw [startsW, Bool.and_eq_true] at h
    rw [List.cons_append, startsW, h.1, startsW_extend cs ps r h.2]
    rfl

theorem hasSubL_nil_pat : ∀ l : List Char, hasSubL l [] = true
  | [] => rfl
  | _ :: _ => by rw [hasSubL, startsW_nil_right]; rfl

theorem hasSubL_self : ∀ l : List Char, hasSubL l l = true
  | [] => rfl
  | c :: cs => by rw [hasSubL, startsW_self]; rfl

theorem hasSubL_ext_right : ∀ (l r p : List Char), hasSubL l p = true → hasSubL (l ++ r) p = true
  | [], r, p, h => by
    have hp : p = [] := by simpa [hasSubL, List.isEmpty_iff] using h
    subst hp
    simpa using hasSubL_nil_pat r
  | c :: cs, r, p, h => by
    rw [hasSubL, Bool.or_eq_true] at h
    rw [List.cons_append, hasSubL, Bool.or_eq_true]
    rcases h with h | h
    · left
      rw [← List.cons_append]
      exact startsW_extend _ _ _ h
    · right
      exact hasSubL_ext_right cs r p h

theorem hasSubL_ext_left : ∀ (l r p : List Char), hasSubL r p = true → hasSubL (l ++ r) p = true
  | [], r, p, h => by simpa using h
  | c :: cs, r, p, h => by
    rw [List.cons_append, hasSubL, Bool.or_eq_true]
    right
    exact hasSubL_ext_left cs r p h

theorem hasSub_ext_right (s t p : String) (h : hasSub s p = true) : hasSub (s ++ t) p = true := by
  rw [hasSub, String.data_append]
  exact hasSubL_ext_right _ _ _ h

theorem hasSub_ext_left (s t p : String) (h : hasSub t p = true) : hasSub (s ++ t) p = true := by
  rw [hasSub, String.data_append]
  exact hasSubL_ext_left _ _ _ h

theorem hasSub_self (s : String) : hasSub s s = true := hasSubL_self s.data

theorem startsW_str_extend (s t p : String) (h : startsW s.data p.data = true) :
    startsW (s ++ t).data p.data = true := by
  rw [String.data_append]
  exact startsW_extend _ _ _ h

theorem startsW_str_refl_append (p t : String) : startsW (p ++ t).data p.data = true := by
  rw [String.data_append]
  exact startsW_refl_append _ _

/-- The empty-message diagnostic contains the word `пустой`. -/
theorem emptyDiag_has_keyword (fname : String) (idx : Nat) :
    hasSub (emptyDiag fname idx) "пустой" = true := by
  rw [emptyDiag]
  refine hasSub_ext_right _ _ _ (hasSub_ext_right _ _ _ (hasSub_ext_right _ _ _
    (hasSub_ext_right _ _ _ (hasSub_ext_right _ _ _ ?_))))
  exact hasSub_ext_left _ _ _ (by decide)

/-- The empty-message diagnostic contains the decimal 1-based row index. -/
theorem emptyDiag_has_index (fname : String) (idx : Nat) :
    hasSub (emptyDiag fname idx) (Nat.repr (idx + 1)) = true := by
  rw [emptyDiag]
  exact hasSub_ext_left _ _ _ (hasSub_self _)

/-- The empty-message diagnostic starts with the file name. -/
theorem emptyDiag_names_file (fname : String) (idx : Nat) :
    startsW (emptyDiag fname idx).data fname.data = true := by
  rw [emptyDiag]
  refine startsW_str_extend _ _ _ (startsW_str_extend _ _ _ (startsW_str_extend _ _ _
    (startsW_str_extend _ _ _ (startsW_str_extend _ _ _ ?_))))
  exact startsW_str_refl_append _ _

/-- The bad-coordinates diagnostic contains the decimal 1-based row index. -/
theorem coordDiag_has_index (fname : String) (idx : Nat) (a b : Option String) :
    hasSub (coordDiag fname idx a b) (Nat.repr (idx + 1)) = true := by
  rw [coordDiag]
  refine hasSub_ext_right _ _ _ (hasSub_ext_right _ _ _ (hasSub_ext_right _ _ _
    (hasSub_ext_right _ _ _ ?_)))
  exact hasSub_ext_left _ _ _ (hasSub_self _)

/-- The bad-coordinates diagnostic starts with the file name and quotes
both raw cell texts. -/
theorem coordDiag_names_file (fname : String) (idx : Nat) (a b : Option String) :
    startsW (coordDiag fname idx a b).data fname.data = true := by
  rw [coordDiag]
  refine startsW_str_extend _ _ _ (startsW_str_extend _ _ _ (startsW_str_extend _ _ _
    (startsW_str_extend _ _ _ (startsW_str_extend _ _ _ ?_))))
  exact startsW_str_refl_append _ _

/-- C4: the Row Validator applies its rules in order with the first
failure winning — an empty/missing message number is rejected with the
empty-message diagnostic *regardless of the coordinate cells*
(short-circuit), otherwise the coordinate check decides; every rejected
row gets exactly one diagnostic; both diagnostics start with the file
name and contain the 1-based row position, and the empty-message
diagnostic mentions emptiness (`пустой`). -/
theorem c4_row_validator (fname : String) (cols : List String) (idx : Nat)
    (row : List (Option String)) :
    (msgEmptyB (cellAt cols row "Номер сообщения") = true →
      valid_row fname cols idx row = (false, some (emptyDiag fname idx))) ∧
    (msgEmptyB (cellAt cols row "Номер сообщения") = false →
      in_range_lat_lon (ensure_float (cellAt cols row "Широта"))
          (ensure_float (cellAt cols row "Долгота")) = true →
      valid_row fname cols idx row = (true, none)) ∧
    (msgEmptyB (cellAt cols row "Номер сообщения") = false →
      in_range_lat_lon (ensure_float (cellAt cols row "Широта"))
          (ensure_float (cellAt cols row "Долгота")) = false →
      valid_row fname cols idx row =
        (false, some (coordDiag fname idx (cellAt cols row "Широта")
          (cellAt cols row "Долгота")))) ∧
    hasSub (emptyDiag fname idx) "пустой" = true ∧
    hasSub (emptyDiag fname idx) (Nat.repr (idx + 1)) = true ∧
    startsW (emptyDiag fname idx).data fname.data = true ∧
    (∀ a b : Option String, hasSub (coordDiag fname idx a b) (Nat.repr (idx + 1)) = true ∧
      startsW (coordDiag fname idx a b).data fname.data = true) := by
  refine ⟨?_, ?_, ?_, emptyDiag_has_keyword fname idx, emptyDiag_has_index fname idx,
    emptyDiag_names_file fname idx,
    fun a b => ⟨coordDiag_has_index fname idx a b, coordDiag_names_file fname idx a b⟩⟩
  · intro h
    simp [valid_row, h]
  · intro h h2
    simp [valid_row, h, h2]
  · intro h h2
    simp [valid_row, h, h2]

/-- Witness for C4 at a concrete rejected row: message number missing and
coordinates invalid, yet the (single) diagnostic is the empty-message one
for data row 2 — the coordinate check was short-circuited. -/
theorem c4_row_validator_witness :
    msgEmptyB (cellAt required_cols
        [none, some "Ц", none, none, none, none, none, none, some "abc", some "999"]
        "Номер сообщения") = true ∧
    valid_row "in.xlsx" required_cols 1
        [none, some "Ц", none, none, none, none, none, none, some "abc", some "999"] =
      (false, some (emptyDiag "in.xlsx" 1)) ∧
    hasSub (emptyDiag "in.xlsx" 1) "пустой" = true :=
  ⟨by decide,
   (c4_row_validator "in.xlsx" required_cols 1
      [none, some "Ц", none, none, none, none, none, none, some "abc", some "999"]).1 (by decide),
   (c4_row_validator "in.xlsx" required_cols 1
      [none, some "Ц", none, none, none, none, none, none, some "abc", some "999"]).2.2.2.1⟩

/-- C8: single-file conversion takes its header from the third physical
row (the first two rows are ignored entirely), requires each of the ten
Russian column headers by exact string match, and when one is missing the
conversion fails outright with a diagnostic naming the first missing
column — independently of the data rows, before any placemark
processing, and with no output produced (the error branch carries none). -/
theorem c8_schema_check (fname outName : String) (r0 r1 : List (Option String))
    (hdr : List (Option String)) (body : List (List (Option String))) :
    (∀ r0' r1' : List (Option String),
      excel_to_kml fname (r0 :: r1 :: hdr :: body) outName =
        excel_to_kml fname (r0' :: r1' :: hdr :: body) outName) ∧
    (∀ c, required_cols.find?
        (fun c => !((hdr.map (fun x => x.getD "")).contains c)) = some c →
      c ∈ required_cols ∧ c ∉ hdr.map (fun x => x.getD "") ∧
      excel_to_kml fname (r0 :: r1 :: hdr :: body) outName =
        .error (fname ++ ": отсутствует обязательная колонка: " ++ c) ∧
      ∀ body' : List (List (Option String)),
        excel_to_kml fname (r0 :: r1 :: hdr :: body) outName =
          excel_to_kml fname (r0 :: r1 :: hdr :: body') outName) ∧
    ((∀ c ∈ required_cols, c ∈ hdr.map (fun x => x.getD "")) →
      ∃ v, excel_to_kml fname (r0 :: r1 :: hdr :: body) outName = .ok v) := by
  have hread : ∀ bd : List (List (Option String)),
      read_excel_header2 (r0 :: r1 :: hdr :: bd) =
        ⟨hdr.map (fun x => x.getD ""), bd⟩ := fun _ => rfl
  refine ⟨fun _ _ => rfl, ?_, ?_⟩
  · intro c hc
    refine ⟨List.mem_of_find?_eq_some hc, ?_, ?_, ?_⟩
    · have := List.find?_some hc
      simp only [Bool.not_eq_eq_eq_not, Bool.not_true] at this
      intro hmem
      have h2 : (hdr.map (fun x => x.getD "")).contains c = true := List.elem_iff.mpr hmem
      rw [h2] at this
      simp at this
    · rw [excel_to_kml, hread, hc]
    · intro body'
      rw [excel_to_kml, excel_to_kml, hread, hread, hc]
  · intro hall
    rw [excel_to_kml, hread]
    have hnone : required_cols.find?
        (fun c => !((hdr.map (fun x => x.getD "")).contains c)) = none := by
      rw [List.find?_eq_none]
      intro x hx
      simp only [Bool.not_eq_eq_eq_not, Bool.not_true, Bool.not_eq_false]
      exact List.elem_iff.mpr (hall x hx)
    rw [hnone]
    exact ⟨_, rfl⟩

/-- Witness for C8: a header missing `Долгота` makes the conversion fail
with the message naming it, and restoring all ten headers succeeds. -/
theorem c8_schema_check_witness :
    (required_cols.find? (fun c =>
      !(((required_cols.take 9).map some).map (fun x => x.getD "")).contains c) = some "Долгота") ∧
    excel_to_kml "in.xlsx"
        ([] :: [] :: (required_cols.take 9).map some :: [[some "1"]]) "out.kml" =
      .error ("in.xlsx" ++ ": отсутствует обязательная колонка: " ++ "Долгота") ∧
    (∀ c ∈ required_cols, c ∈ (required_cols.map some).map (fun x => x.getD "")) ∧
    (∃ v, excel_to_kml "in.xlsx"
        ([] :: [] :: required_cols.map some :: []) "out.kml" = .ok v) :=
  ⟨by decide,
   ((c8_schema_check "in.xlsx" "out.kml" [] [] ((required_cols.take 9).map some)
      [[some "1"]]).2.1 "Долгота" (by decide)).2.2.1,
   by decide,
   (c8_schema_check "in.xlsx" "out.kml" [] [] (required_cols.map some) []).2.2 (by decide)⟩

/-! ### Row accounting (C9) -/

theorem valid_row_dichotomy (fname : String) (cols : List String) (idx : Nat)
    (row : List (Option String)) :
    valid_row fname cols idx row = (true, none) ∨
    ∃ d, valid_row fname cols idx row = (false, some d) := by
  by_cases h : msgEmptyB (cellAt cols row "Номер сообщения") = true
  · right
    exact ⟨emptyDiag fname idx, by simp [valid_row, h]⟩
  · rw [Bool.not_eq_true] at h
    by_cases h2 : in_range_lat_lon (ensure_float (cellAt cols row "Широта"))
        (ensure_float (cellAt cols row "Долгота")) = true
    · left
      simp [valid_row, h, h2]
    · right
      rw [Bool.not_eq_true] at h2
      exact ⟨coordDiag fname idx (cellAt cols row "Широта") (cellAt cols row "Долгота"),
        by simp [valid_row, h, h2]⟩

theorem count_enumFrom (fname : String) (cols : List String) :
    ∀ (rows : List (List (Option String))) (k : Nat),
    rows.length =
      ((List.enumFrom k rows).filterMap
        (fun p => if (valid_row fname cols p.1 p.2).1 then some p.2 else none)).length +
      ((List.enumFrom k rows).filterMap (fun p => (valid_row fname cols p.1 p.2).2)).length
  | [], _ => rfl
  | r :: rs, k => by
    have ih := count_enumFrom fname cols rs (k + 1)
    rcases valid_row_dichotomy fname cols k r with h | ⟨d, h⟩
    · simp [List.enumFrom_cons, List.filterMap_cons, h]
      omega
    · simp [List.enumFrom_cons, List.filterMap_cons, h]
      omega

/-- C9: when the schema check passes, row validation is a dichotomy (one
placemark or exactly one diagnostic per source row, never both, never
neither), the returned counts satisfy `total_rows = written_count +
length(problems_log)`, and the problems log is exactly the ordered list
of per-row diagnostics in source-row order. -/
theorem c9_row_accounting (fname : String) (sheet : List (List (Option String)))
    (outName : String) :
    (∀ idx row, valid_row fname (read_excel_header2 sheet).cols idx row = (true, none) ∨
      ∃ d, valid_row fname (read_excel_header2 sheet).cols idx row = (false, some d)) ∧
    ((exOut (excel_to_kml fname sheet outName)).isSome = true →
      exTotal (excel_to_kml fname sheet outName) =
        exWritten (excel_to_kml fname sheet outName) +
          (exProblems (excel_to_kml fname sheet outName)).length ∧
      exProblems (excel_to_kml fname sheet outName) =
        problemsOf fname (read_excel_header2 sheet).cols (read_excel_header2 sheet).rows) := by
  refine ⟨fun idx row => valid_row_dichotomy fname _ idx row, ?_⟩
  intro hok
  cases hfind : required_cols.find?
      (fun c => !((read_excel_header2 sheet).cols.contains c)) with
  | some c =>
    rw [excel_to_kml, hfind] at hok
    simp [exOut] at hok
  | none =>
    rw [excel_to_kml, hfind]
    refine ⟨?_, rfl⟩
    simp only [exTotal, exWritten, exProblems, problemsOf, validRowsOf]
    exact count_enumFrom fname (read_excel_header2 sheet).cols
      (read_excel_header2 sheet).rows 0

/-- Witness for C9 on a concrete sheet: three data rows, one placemark,
two diagnostics, `3 = 1 + 2`. -/
theorem c9_row_accounting_witness :
    (exOut (excel_to_kml "in.xlsx" c9Sheet "out.kml")).isSome = true ∧
    exTotal (excel_to_kml "in.xlsx" c9Sheet "out.kml") = 3 ∧
    exWritten (excel_to_kml "in.xlsx" c9Sheet "out.kml") = 1 ∧
    (exProblems (excel_to_kml "in.xlsx" c9Sheet "out.kml")).length = 2 ∧
    exTotal (excel_to_kml "in.xlsx" c9Sheet "out.kml") =
      exWritten (excel_to_kml "in.xlsx" c9Sheet "out.kml") +
        (exProblems (excel_to_kml "in.xlsx" c9Sheet "out.kml")).length :=
  ⟨by decide, by decide, by decide, by decide,
   ((c9_row_accounting "in.xlsx" c9Sheet "out.kml").2 (by decide)).1⟩

set_option maxRecDepth 100000 in
/-- C1 (evidence of divergence): `build_description` does wrap the block
in a literal `<![CDATA[` marker, but `ElementTree` has no CDATA support
and escapes element text on serialization, so the written output contains
`&lt;![CDATA[` and `&lt;b&gt;` and nowhere the unescaped `<![CDATA[` or
`<b>` — the consuming document sees escaped character data, not a CDATA
section. -/
theorem c1_cdata_marker_is_escaped_in_output :
    hasSub (build_description (some "ул. Пушкина, 1") none none none
      ["http://a/1.jpg", "http://a/2.jpg"]) "<![CDATA[" = true ∧
    (exOut (excel_to_kml "in.xlsx" c1Sheet "out.kml")).isSome = true ∧
    hasSub ((exOut (excel_to_kml "in.xlsx" c1Sheet "out.kml")).getD "") "<![CDATA[" = false ∧
    hasSub ((exOut (excel_to_kml "in.xlsx" c1Sheet "out.kml")).getD "") "&lt;![CDATA[" = true ∧
    hasSub ((exOut (excel_to_kml "in.xlsx" c1Sheet "out.kml")).getD "") "<b>" = false ∧
    hasSub ((exOut (excel_to_kml "in.xlsx" c1Sheet "out.kml")).getD "") "&lt;b&gt;" = true := by
  decide

/-! ### Description builder lemmas (C2) -/

theorem mem_ite_nil_then {c : Prop} [Decidable c] {l : List String} {p : String}
    (h : p ∈ if c then ([] : List String) else l) : p ∈ l := by
  by_cases hc : c
  · rw [if_pos hc] at h
    simp at h
  · rwa [if_neg hc] at h

theorem mem_ite_singleton {c : Prop} [Decidable c] {s p : String}
    (h : p ∈ if c then [s] else ([] : List String)) : c ∧ p = s := by
  by_cases hc : c
  · rw [if_pos hc] at h
    simp at h
    exact ⟨hc, h⟩
  · rw [if_neg hc] at h
    simp at h

/-- Every element of the `parts` list is one of the five labelled
fragments, gated by its field's truthiness. -/
theorem descParts_mem {addr obj topic text : Option String} {links : List String} {p : String}
    (hp : p ∈ descParts addr obj topic text links) :
    (cellTruthy addr = true ∧ p = "<b>Адрес:</b> " ++ htmlEscape (strOfCell addr)) ∨
    (cellTruthy obj = true ∧ p = "<b>Объект:</b> " ++ htmlEscape (strOfCell obj)) ∨
    (cellTruthy topic = true ∧ p = "<b>Проблема:</b> " ++ htmlEscape (strOfCell topic)) ∨
    (cellTruthy text = true ∧ p = "<b>Текст:</b> " ++ htmlEscape (strOfCell text)) ∨
    p = "<b>Фото:</b> " ++ joinSep " | " (descAnchors links) := by
  rw [descParts] at hp
  simp only [List.mem_append] at hp
  rcases hp with ((((h | h) | h) | h) | h)
  · exact Or.inl (mem_ite_singleton h)
  · exact Or.inr (Or.inl (mem_ite_singleton h))
  · exact Or.inr (Or.inr (Or.inl (mem_ite_singleton h)))
  · exact Or.inr (Or.inr (Or.inr (Or.inl (mem_ite_singleton h))))
  · refine Or.inr (Or.inr (Or.inr (Or.inr ?_)))
    have h2 := mem_ite_nil_then h
    have h3 := mem_ite_nil_then h2
    simpa using h3

theorem startsW_false_of_take :
    ∀ (pre v lbl : List Char), startsW pre (lbl.take pre.length) = false →
      startsW (pre ++ v) lbl = false
  | [], _, lbl, hm => by simp [startsW_nil_right] at hm
  | c :: cs, v, [], hm => by simp [startsW_nil_right] at hm
  | c :: cs, v, q :: qs, hm => by
    rw [List.length_cons, List.take_succ_cons, startsW] at hm
    rw [List.cons_append, startsW]
    rcases Bool.and_eq_false_iff.mp hm with h | h
    · rw [h]
      rfl
    · rw [startsW_false_of_take cs v qs h]
      simp

theorem startsW_mismatch (pre v lbl : String)
    (hm : startsW pre.data (lbl.data.take pre.data.length) = false) :
    startsW (pre ++ v).data lbl.data = false := by
  rw [String.data_append]
  exact startsW_false_of_take _ _ _ hm

theorem linksOfCell_mem {c : Option String} {u : String} (hu : u ∈ linksOfCell c) :
    pyStrip u = u ∧ ¬ u = "" := by
  rw [linksOfCell] at hu
  have h1 := List.mem_filter.mp hu
  rcases List.mem_map.mp h1.1 with ⟨l, _, rfl⟩
  exact ⟨pyStrip_idem _, by simpa using h1.2⟩

theorem descAnchorsFrom_enum : ∀ (links : List String) (k : Nat),
    (∀ u ∈ links, pyStrip u = u ∧ ¬ u = "") →
    descAnchorsFrom k links = (List.enumFrom k links).map (fun p => anchorStr p.1 p.2)
  | [], _, _ => rfl
  | u :: us, k, h => by
    have hu := h u (by simp)
    simp only [descAnchorsFrom]
    rw [hu.1, if_neg hu.2,
      descAnchorsFrom_enum us (k + 1) (fun x hx => h x (by simp [hx])),
      List.enumFrom_cons]
    rfl

/-- C2 (amended): a narrative field that is the *empty string* contributes
nothing (no label of its kind appears in any part); a *missing* (`NaN`)
field does contribute its label with the rendered value `nan`, and a
missing photo-link cell contributes the single hyperlink target `nan`
(Python truthiness of `NaN`); a whitespace-only or empty photo cell
yields no links, and the links of a photo cell are labelled consecutively
`Фото 1`, `Фото 2`, … in segment order with blank segments dropped
beforehand. -/
theorem c2_description_empty_fields :
    (∀ o t x ls p, p ∈ descParts (some "") o t x ls →
      startsW p.data "<b>Адрес:</b>".data = false) ∧
    (∀ a t x ls p, p ∈ descParts a (some "") t x ls →
      startsW p.data "<b>Объект:</b>".data = false) ∧
    (∀ a o x ls p, p ∈ descParts a o (some "") x ls →
      startsW p.data "<b>Проблема:</b>".data = false) ∧
    (∀ a o t ls p, p ∈ descParts a o t (some "") ls →
      startsW p.data "<b>Текст:</b>".data = false) ∧
    (∀ c : Option String, descAnchors (linksOfCell c) =
      (List.enumFrom 1 (linksOfCell c)).map (fun p => anchorStr p.1 p.2)) ∧
    (∀ o t x ls, descParts none o t x ls =
      "<b>Адрес:</b> nan" :: descParts (some "") o t x ls) ∧
    linksOfCell none = ["nan"] ∧
    linksOfCell (some "") = [] ∧
    linksOfCell (some " ; ") = [] := by
  refine ⟨?_, ?_, ?_, ?_, ?_, ?_, by decide, by decide, by decide⟩
  · intro o t x ls p hp
    rcases descParts_mem hp with ⟨ht, rfl⟩ | ⟨_, rfl⟩ | ⟨_, rfl⟩ | ⟨_, rfl⟩ | rfl
    · simp [cellTruthy] at ht
    · exact startsW_mismatch _ _ _ (by decide)
    · exact startsW_mismatch _ _ _ (by decide)
    · exact startsW_mismatch _ _ _ (by decide)
    · exact startsW_mismatch _ _ _ (by decide)
  · intro a t x ls p hp
    rcases descParts_mem hp with ⟨_, rfl⟩ | ⟨ht, rfl⟩ | ⟨_, rfl⟩ | ⟨_, rfl⟩ | rfl
    · exact startsW_mismatch _ _ _ (by decide)
    · simp [cellTruthy] at ht
    · exact startsW_mismatch _ _ _ (by decide)
    · exact startsW_mismatch _ _ _ (by decide)
    · exact startsW_mismatch _ _ _ (by decide)
  · intro a o x ls p hp
    rcases descParts_mem hp with ⟨_, rfl⟩ | ⟨_, rfl⟩ | ⟨ht, rfl⟩ | ⟨_, rfl⟩ | rfl
    · exact startsW_mismatch _ _ _ (by decide)
    · exact startsW_mismatch _ _ _ (by decide)
    · simp [cellTruthy] at ht
    · exact startsW_mismatch _ _ _ (by decide)
    · exact startsW_mismatch _ _ _ (by decide)
  · intro a o t ls p hp
    rcases descParts_mem hp with ⟨_, rfl⟩ | ⟨_, rfl⟩ | ⟨_, rfl⟩ | ⟨ht, rfl⟩ | rfl
    · exact startsW_mismatch _ _ _ (by decide)
    · exact startsW_mismatch _ _ _ (by decide)
    · exact startsW_mismatch _ _ _ (by decide)
    · simp [cellTruthy] at ht
    · exact startsW_mismatch _ _ _ (by decide)
  · intro c
    exact descAnchorsFrom_enum _ 1 (fun u hu => linksOfCell_mem hu)
  · intro o t x ls
    rw [descParts, descParts]
    have h : (if cellTruthy none = true then
        ["<b>Адрес:</b> " ++ htmlEscape (strOfCell none)] else []) =
        ["<b>Адрес:</b> nan"] := by decide
    have h2 : (if cellTruthy (some "") = true then
        ["<b>Адрес:</b> " ++ htmlEscape (strOfCell (some ""))] else []) =
        ([] : List String) := by decide
    rw [h, h2, List.singleton_append, List.nil_append]
    simp only [List.cons_append]

/-- C2 counterexample: a whitespace-only address (empty after trimming)
still contributes its label, and a missing photo-link cell contributes a
hyperlink (to the text `nan`) — both contradict "contributes nothing". -/
theorem c2_counterexample :
    pyStrip " " = "" ∧
    descParts (some " ") (some "") (some "") (some "") [] = ["<b>Адрес:</b>  "] ∧
    linksOfCell none = ["nan"] ∧
    hasSub (build_description (some "") (some "") (some "") (some "") (linksOfCell none))
      "<a href=" = true := by decide

/-- Witness for C2 at the spec's scenario: the photo cell
`"http://a/1.jpg ; ; http://a/2.jpg"` yields exactly the two anchors
`Фото 1` and `Фото 2`, and a part of a description with empty address
never carries the address label. -/
theorem c2_description_empty_fields_witness :
    descAnchors (linksOfCell (some "http://a/1.jpg ; ; http://a/2.jpg")) =
      [anchorStr 1 "http://a/1.jpg", anchorStr 2 "http://a/2.jpg"] ∧
    startsW ("<b>Объект:</b> O" : String).data "<b>Адрес:</b>".data = false :=
  ⟨by
    rw [c2_description_empty_fields.2.2.2.2.1 (some "http://a/1.jpg ; ; http://a/2.jpg")]
    decide,
   c2_description_empty_fields.1 (some "O") (some "") (some "") [] "<b>Объект:</b> O"
     (by decide)⟩

/-! ### Style table and missing-district lemmas (C10) -/

theorem lookup_eq_none_of_not_mem {β : Type} {key : String} :
    ∀ {l : List (String × β)}, key ∉ l.map Prod.fst → l.lookup key = none
  | [], _ => rfl
  | (k, v) :: es, h => by
    have hk : (key == k) = false := by
      apply beq_eq_false_iff_ne.mpr
      intro he
      exact h (by simp [he])
    rw [List.lookup, hk]
    exact lookup_eq_none_of_not_mem (fun hm => h (by simp at hm ⊢; exact Or.inr hm))

theorem mem_uniqFirst_aux : ∀ (l acc : List String) (x : String),
    x ∈ l.foldl (fun acc x => if acc.contains x then acc else acc ++ [x]) acc ↔
      x ∈ acc ∨ x ∈ l
  | [], acc, x => by simp
  | y :: ys, acc, x => by
    rw [List.foldl_cons, mem_uniqFirst_aux ys _ x]
    by_cases hy : acc.contains y
    · rw [if_pos hy]
      have hyacc : y ∈ acc := List.elem_iff.mp hy
      constructor
      · rintro (h | h)
        · exact Or.inl h
        · exact Or.inr (by simp [h])
      · rintro (h | h)
        · exact Or.inl h
        · rcases List.mem_cons.mp h with rfl | h
          · exact Or.inl hyacc
          · exact Or.inr h
    · rw [if_neg hy]
      simp [List.mem_append, List.mem_cons]
      tauto

theorem mem_uniqFirst (l : List String) (x : String) : x ∈ uniqFirst l ↔ x ∈ l := by
  rw [uniqFirst, mem_uniqFirst_aux]
  simp

theorem mem_districtsOf (cols : List String) (rows : List (List (Option String)))
    (d : String) :
    d ∈ districtsOf cols rows ↔ some d ∈ rows.map (fun r => cellAt cols r "Район") := by
  rw [districtsOf, (insSortStr_perm _).mem_iff, mem_uniqFirst, List.mem_filterMap]
  simp [List.mem_map, eq_comm]

theorem styleIdsOf_keys (cols : List String) (rows : List (List (Option String))) :
    (styleIdsOf cols rows).map Prod.fst = districtsOf cols rows := by
  rw [styleIdsOf, List.map_map]
  exact List.map_id _

/-- C10 (amended): a validated row with a missing district cell still
produces a placemark whose folder district name is the string rendering
`nan` of the missing value; the style table is computed over the
non-missing district values only; and — provided no non-missing district
cell carries the literal string `"nan"` — the placemark has no `styleUrl`
child.  (Amended from the claim: if some other validated row's district
is literally `"nan"`, the lookup collides and a `styleUrl` *is* emitted;
see the counterexample.) -/
theorem c10_missing_district (cols : List String) (rows : List (List (Option String)))
    (row : List (Option String)) (hmiss : cellAt cols row "Район" = none) :
    rayonOf cols row = "nan" ∧
    (∀ d, d ∈ districtsOf cols rows ↔ some d ∈ rows.map (fun r => cellAt cols r "Район")) ∧
    (styleIdsOf cols rows).map Prod.fst = districtsOf cols rows ∧
    tagOf (placemarkFor (styleIdsOf cols rows) cols row) = "Placemark" ∧
    ("nan" ∉ districtsOf cols rows →
      styleUrlOf (placemarkFor (styleIdsOf cols rows) cols row) = none) := by
  have hray : rayonOf cols row = "nan" := by
    rw [rayonOf, hmiss]
    decide
  refine ⟨hray, mem_districtsOf cols rows, styleIdsOf_keys cols rows,
    tagOf_placemarkFor _ _ _, ?_⟩
  intro hnan
  apply styleUrlOf_placemarkFor_none
  apply lookup_eq_none_of_not_mem
  rw [styleIdsOf_keys, hray]
  exact hnan

set_option maxRecDepth 100000 in
/-- C10 counterexample: with another validated row whose district cell is
the literal string `nan`, the missing-district placemark *does* carry a
`styleUrl` (the lookup key `str(nan)` collides with the literal), so "such
a placemark carries no style reference" is false as stated. -/
theorem c10_counterexample :
    cellAt required_cols c10RowMissing "Район" = none ∧
    (styleUrlOf (placemarkFor (styleIdsOf required_cols [c10RowLiteralNan, c10RowMissing])
      required_cols c10RowMissing)).isSome = true := by decide

/-- Witness for C10 on a file whose only validated row has the missing
district: folder name `nan`, empty style table, no `styleUrl`. -/
theorem c10_missing_district_witness :
    cellAt required_cols c10RowMissing "Район" = none ∧
    rayonOf required_cols c10RowMissing = "nan" ∧
    ("nan" ∉ districtsOf required_cols [c10RowMissing]) ∧
    styleUrlOf (placemarkFor (styleIdsOf required_cols [c10RowMissing])
      required_cols c10RowMissing) = none :=
  ⟨by decide,
   (c10_missing_district required_cols [c10RowMissing] c10RowMissing (by decide)).1,
   by decide,
   (c10_missing_district required_cols [c10RowMissing] c10RowMissing (by decide)).2.2.2.2
     (by decide)⟩

/-! ### Folder structure lemmas (C6) -/

theorem any_fst_eq_contains {β : Type} :
    ∀ (l : List (String × β)) (k : String),
      l.any (fun e => e.1 == k) = (l.map Prod.fst).contains k
  | [], _ => rfl
  | (a, b) :: es, k => by
    rw [List.any_cons, List.map_cons, List.contains_cons, any_fst_eq_contains es k]
    by_cases h : a = k
    · subst h
      simp
    · have h1 : (a == k) = false := beq_eq_false_iff_ne.mpr h
      have h2 : (k == a) = false := beq_eq_false_iff_ne.mpr (Ne.symm h)
      rw [h1, h2]

theorem map_update_keys {β : Type} (l : List (String × β)) (k : String) (g : String × β → β) :
    (l.map (fun e => if e.1 == k then (e.1, g e) else e)).map Prod.fst = l.map Prod.fst := by
  rw [List.map_map]
  apply List.map_congr_left
  intro e _
  show (if (e.1 == k) = true then (e.1, g e) else e).1 = e.1
  split <;> rfl

theorem lookup_map_update {β : Type} (o k : String) (g : String × β → β) :
    ∀ (l : List (String × β)),
      (l.map (fun e => if e.1 == k then (e.1, g e) else e)).lookup o =
        (l.lookup o).map (fun v => if o == k then g (o, v) else v)
  | [] => rfl
  | (a, b) :: es => by
    rw [List.map_cons]
    by_cases hak : ((a, b).1 == k) = true
    · rw [if_pos hak]
      dsimp only
      rw [List.lookup, List.lookup]
      by_cases hoa : (o == a) = true
      · rw [hoa]
        have hoaeq : o = a := by simpa using hoa
        subst hoaeq
        have hok : (o == k) = true := hak
        simp [hok]
      · rw [Bool.not_eq_true] at hoa
        rw [hoa]
        exact lookup_map_update o k g es
    · rw [if_neg hak]
      rw [List.lookup, List.lookup]
      by_cases hoa : (o == a) = true
      · rw [hoa]
        have hoaeq : o = a := by simpa using hoa
        subst hoaeq
        have hok : ¬(o == k) = true := hak
        simp [hok]
      · rw [Bool.not_eq_true] at hoa
        rw [hoa]
        exact lookup_map_update o k g es

theorem lookup_append_left {β : Type} :
    ∀ (l₁ l₂ : List (String × β)) (o : String) (v : β),
      l₁.lookup o = some v → (l₁ ++ l₂).lookup o = some v
  | [], _, _, _, h => by simp [List.lookup] at h
  | (a, b) :: es, l₂, o, v, h => by
    rw [List.cons_append, List.lookup]
    rw [List.lookup] at h
    by_cases hoa : (o == a) = true
    · rwa [hoa] at h ⊢
    · rw [Bool.not_eq_true] at hoa
      rw [hoa] at h ⊢
      exact lookup_append_left es l₂ o v h

theorem lookup_append_right {β : Type} :
    ∀ (l₁ l₂ : List (String × β)) (o : String),
      l₁.lookup o = none → (l₁ ++ l₂).lookup o = l₂.lookup o
  | [], _, _, _ => rfl
  | (a, b) :: es, l₂, o, h => by
    rw [List.cons_append, List.lookup]
    rw [List.lookup] at h
    by_cases hoa : (o == a) = true
    · rw [hoa] at h
      simp at h
    · rw [Bool.not_eq_true] at hoa
      rw [hoa] at h ⊢
      exact lookup_append_right es l₂ o h

theorem lookup_isSome_of_mem {β : Type} :
    ∀ (l : List (String × β)) (o : String), o ∈ l.map Prod.fst → ∃ v, l.lookup o = some v
  | [], _, h => by simp at h
  | (a, b) :: es, o, h => by
    rw [List.map_cons] at h
    rw [List.lookup]
    by_cases hoa : (o == a) = true
    · rw [hoa]
      exact ⟨b, rfl⟩
    · rw [Bool.not_eq_true] at hoa
      rw [hoa]
      apply lookup_isSome_of_mem es o
      rcases List.mem_cons.mp h with h1 | h1
      · exact absurd h1 (beq_eq_false_iff_ne.mp hoa)
      · exact h1

theorem lookup_self_of_nodup {β : Type} :
    ∀ (l : List (String × β)), (l.map Prod.fst).Nodup → ∀ p ∈ l, l.lookup p.1 = some p.2
  | [], _, p, hp => by simp at hp
  | (a, b) :: es, hnd, p, hp => by
    rw [List.map_cons, List.nodup_cons] at hnd
    rcases List.mem_cons.mp hp with rfl | hp
    · rw [List.lookup]
      simp
    · rw [List.lookup]
      have hne : (p.1 == a) = false := by
        apply beq_eq_false_iff_ne.mpr
        intro he
        exact hnd.1 (he ▸ List.mem_map.mpr ⟨p, hp, rfl⟩)
      rw [hne]
      exact lookup_self_of_nodup es hnd.2 p hp

theorem addToOkrug_keys (inner : List (String × List Elem)) (rayon : String) (pm : Elem) :
    (addToOkrug inner rayon pm).map Prod.fst =
      if (inner.map Prod.fst).contains rayon then inner.map Prod.fst
      else inner.map Prod.fst ++ [rayon] := by
  rw [addToOkrug, any_fst_eq_contains]
  by_cases h : (inner.map Prod.fst).contains rayon = true
  · rw [if_pos h, if_pos h, map_update_keys]
  · rw [if_neg h, if_neg h, List.map_append]
    rfl

theorem addRow_keys (cols : List String) (sids : List (String × String)) (acc : FolderAcc)
    (row : List (Option String)) :
    (addRow cols sids acc row).map Prod.fst =
      if (acc.map Prod.fst).contains (okrugOf cols row) then acc.map Prod.fst
      else acc.map Prod.fst ++ [okrugOf cols row] := by
  simp only [addRow, any_fst_eq_contains]
  by_cases h : (acc.map Prod.fst).contains (okrugOf cols row) = true
  · rw [if_pos h, if_pos h, map_update_keys]
  · rw [if_neg h, if_neg h, List.map_append]
    rfl

theorem foldl_addRow_keys (cols : List String) (sids : List (String × String)) :
    ∀ (rows : List (List (Option String))) (acc : FolderAcc),
    (rows.foldl (addRow cols sids) acc).map Prod.fst =
      (rows.map (okrugOf cols)).foldl
        (fun ks k => if ks.contains k then ks else ks ++ [k]) (acc.map Prod.fst)
  | [], _ => rfl
  | r :: rs, acc => by
    rw [List.foldl_cons, List.map_cons, List.foldl_cons, foldl_addRow_keys cols sids rs _,
      addRow_keys]

/-- The okrug folders are keyed by the first-encounter-deduplicated okrug
names of the validated rows, in order. -/
theorem foldersOf_keys (cols : List String) (sids : List (String × String))
    (rows : List (List (Option String))) :
    (foldersOf cols sids rows).map Prod.fst = uniqFirst (rows.map (okrugOf cols)) := by
  rw [foldersOf, foldl_addRow_keys, uniqFirst]
  rfl

theorem uniqFirst_nodup_aux :
    ∀ (l acc : List String), acc.Nodup →
      (l.foldl (fun acc x => if acc.contains x then acc else acc ++ [x]) acc).Nodup
  | [], _, h => h
  | y :: ys, acc, h => by
    rw [List.foldl_cons]
    by_cases hy : acc.contains y = true
    · rw [if_pos hy]
      exact uniqFirst_nodup_aux ys acc h
    · rw [if_neg hy]
      apply uniqFirst_nodup_aux
      rw [List.nodup_append]
      refine ⟨h, List.nodup_singleton y, ?_⟩
      intro a ha hay
      rcases List.mem_singleton.mp hay with rfl
      exact hy (List.elem_iff.mpr ha)

theorem uniqFirst_nodup (l : List String) : (uniqFirst l).Nodup :=
  uniqFirst_nodup_aux l [] List.nodup_nil

theorem addRow_inner (cols : List String) (sids : List (String × String)) (acc : FolderAcc)
    (row : List (Option String)) (o : String) :
    (((addRow cols sids acc row).lookup o).getD []).map Prod.fst =
      if okrugOf cols row = o then
        (if (((acc.lookup o).getD []).map Prod.fst).contains (rayonOf cols row) then
          ((acc.lookup o).getD []).map Prod.fst
         else ((acc.lookup o).getD []).map Prod.fst ++ [rayonOf cols row])
      else ((acc.lookup o).getD []).map Prod.fst := by
  simp only [addRow]
  by_cases hmem : acc.any (fun e => e.1 == okrugOf cols row) = true
  · rw [if_pos hmem, lookup_map_update]
    by_cases ho : okrugOf cols row = o
    · rw [if_pos ho]
      have hbeq : (o == okrugOf cols row) = true := by simp [ho]
      have homem : o ∈ acc.map Prod.fst := by
        rw [← ho]
        rw [any_fst_eq_contains] at hmem
        exact List.elem_iff.mp hmem
      obtain ⟨v, hv⟩ := lookup_isSome_of_mem acc o homem
      rw [hv]
      simp [hbeq, addToOkrug_keys]
    · rw [if_neg ho]
      have hbeq : (o == okrugOf cols row) = false :=
        beq_eq_false_iff_ne.mpr (fun he => ho he.symm)
      cases hv : acc.lookup o with
      | none => simp [hv]
      | some v => simp [hv, hbeq]
  · rw [if_neg hmem]
    have hnot : okrugOf cols row ∉ acc.map Prod.fst := by
      intro hm
      rw [any_fst_eq_contains] at hmem
      exact hmem (List.elem_iff.mpr hm)
    by_cases ho : okrugOf cols row = o
    · rw [if_pos ho]
      have hnone : acc.lookup o = none :=
        lookup_eq_none_of_not_mem (ho ▸ hnot)
      rw [lookup_append_right _ _ _ hnone, hnone]
      have hbeq : (o == okrugOf cols row) = true := by simp [ho]
      rw [List.lookup, hbeq]
      simp
    · rw [if_neg ho]
      have hbeq : (o == okrugOf cols row) = false :=
        beq_eq_false_iff_ne.mpr (fun he => ho he.symm)
      cases hv : acc.lookup o with
      | none =>
        rw [lookup_append_right _ _ _ hv, List.lookup, hbeq]
        simp [hv]
      | some v =>
        rw [lookup_append_left _ _ _ _ hv]

theorem foldl_addRow_inner (cols : List String) (sids : List (String × String)) (o : String) :
    ∀ (rows : List (List (Option String))) (acc : FolderAcc),
    (((rows.foldl (addRow cols sids) acc).lookup o).getD []).map Prod.fst =
      ((rows.filter (fun r => okrugOf cols r == o)).map (rayonOf cols)).foldl
        (fun ks k => if ks.contains k then ks else ks ++ [k])
        (((acc.lookup o).getD []).map Prod.fst)
  | [], _ => rfl
  | r :: rs, acc => by
    rw [List.foldl_cons, foldl_addRow_inner cols sids o rs _]
    by_cases h : okrugOf cols r = o
    · rw [List.filter_cons_of_pos (by simp [h]), List.map_cons, List.foldl_cons,
        addRow_inner, if_pos h]
    · rw [List.filter_cons_of_neg (by simp [h]), addRow_inner, if_neg h]

/-- Inside each okrug folder, the district folders are keyed by the
first-encounter-deduplicated district names of that okrug's rows. -/
theorem foldersOf_inner (cols : List String) (sids : List (String × String))
    (rows : List (List (Option String))) (o : String) :
    (((foldersOf cols sids rows).lookup o).getD []).map Prod.fst =
      uniqFirst ((rows.filter (fun r => okrugOf cols r == o)).map (rayonOf cols)) := by
  rw [foldersOf, foldl_addRow_inner, uniqFirst]
  rfl

theorem stylesOfDoc_buildDoc (outName : String) (cols : List String)
    (rows : List (List (Option String))) :
    stylesOfDoc (buildDoc outName cols rows) =
      (districtsOf cols rows).map
        (fun d => create_style (styleIdOf d) (kml_color_from_district d)) := by
  simp only [buildDoc, stylesOfDoc, docOf, childrenOf, List.getD]
  rw [List.get?_cons_zero]
  simp only [Option.getD_some, childrenOf]
  rw [List.cons_append]
  rw [show List.filter (fun e => tagOf e == "Style")
      (Elem.mk "name" [] (some outName) [] ::
        ((districtsOf cols rows).map
          (fun d => create_style (styleIdOf d) (kml_color_from_district d)) ++
         (foldersOf cols (styleIdsOf cols rows) rows).map renderOkrug)) =
      List.filter (fun e => tagOf e == "Style")
        ((districtsOf cols rows).map
          (fun d => create_style (styleIdOf d) (kml_color_from_district d)) ++
         (foldersOf cols (styleIdsOf cols rows) rows).map renderOkrug) from rfl]
  have h1 : List.filter ((fun e => tagOf e == "Style") ∘
      (fun d => create_style (styleIdOf d) (kml_color_from_district d)))
      (districtsOf cols rows) = districtsOf cols rows :=
    List.filter_eq_self.mpr (fun a _ => rfl)
  have h2 : List.filter ((fun e => tagOf e == "Style") ∘ renderOkrug)
      (foldersOf cols (styleIdsOf cols rows) rows) = [] :=
    List.filter_eq_nil_iff.mpr (fun a _ h => Bool.false_ne_true h)
  rw [List.filter_append, List.filter_map, List.filter_map, h1, h2,
    List.map_nil, List.append_nil]

theorem foldersOfDoc_buildDoc (outName : String) (cols : List String)
    (rows : List (List (Option String))) :
    foldersOfDoc (buildDoc outName cols rows) =
      (foldersOf cols (styleIdsOf cols rows) rows).map renderOkrug := by
  simp only [buildDoc, foldersOfDoc, docOf, childrenOf, List.getD]
  rw [List.get?_cons_zero]
  simp only [Option.getD_some, childrenOf]
  rw [List.cons_append]
  rw [show List.filter (fun e => tagOf e == "Folder")
      (Elem.mk "name" [] (some outName) [] ::
        ((districtsOf cols rows).map
          (fun d => create_style (styleIdOf d) (kml_color_from_district d)) ++
         (foldersOf cols (styleIdsOf cols rows) rows).map renderOkrug)) =
      List.filter (fun e => tagOf e == "Folder")
        ((districtsOf cols rows).map
          (fun d => create_style (styleIdOf d) (kml_color_from_district d)) ++
         (foldersOf cols (styleIdsOf cols rows) rows).map renderOkrug) from rfl]
  have h1 : List.filter ((fun e => tagOf e == "Folder") ∘
      (fun d => create_style (styleIdOf d) (kml_color_from_district d)))
      (districtsOf cols rows) = [] :=
    List.filter_eq_nil_iff.mpr (fun a _ h => Bool.false_ne_true h)
  have h2 : List.filter ((fun e => tagOf e == "Folder") ∘ renderOkrug)
      (foldersOf cols (styleIdsOf cols rows) rows) =
      foldersOf cols (styleIdsOf cols rows) rows :=
    List.filter_eq_self.mpr (fun a _ => rfl)
  rw [List.filter_append, List.filter_map, List.filter_map, h1, h2,
    List.map_nil, List.nil_append]

theorem nameTextOf_renderOkrug (p : String × List (String × List Elem)) :
    nameTextOf (renderOkrug p) = some p.1 := rfl

theorem subfolderNames_renderOkrug (p : String × List (String × List Elem)) :
    subfolderNames (renderOkrug p) = (p.2.map Prod.fst).map some := by
  simp only [subfolderNames, renderOkrug, childrenOf]
  rw [show List.filter (fun c => tagOf c == "Folder")
      (Elem.mk "name" [] (some p.1) [] :: p.2.map renderRayon) =
      List.filter (fun c => tagOf c == "Folder") (p.2.map renderRayon) from rfl]
  have hr : List.filter ((fun c => tagOf c == "Folder") ∘ renderRayon) p.2 = p.2 :=
    List.filter_eq_self.mpr (fun a _ => rfl)
  rw [List.filter_map, hr, List.map_map, List.map_map]
  rfl

/-- C6: In the document built for one file, the `Style` children are exactly
the per-district styles taken in alphabetically sorted order of the distinct
(first-encounter-deduplicated) district names of the validated rows — that
list is sorted and is a permutation of the distinct district names — while
the sibling `Folder` nodes appear in first-encounter order: the okrug
folders under the document follow the first-encounter order of the rows'
okrug values, and inside each okrug folder the district folders follow the
first-encounter order of that okrug's rows' district values.  This holds
for every input. -/
theorem c6_style_order_vs_folder_order (outName : String) (cols : List String)
    (rows : List (List (Option String))) :
    (stylesOfDoc (buildDoc outName cols rows) =
      (insSortStr (uniqFirst (rows.filterMap (fun r => cellAt cols r "Район")))).map
        (fun d => create_style (styleIdOf d) (kml_color_from_district d))) ∧
    List.Sorted (· ≤ ·) (districtsOf cols rows) ∧
    (districtsOf cols rows).Perm
      (uniqFirst (rows.filterMap (fun r => cellAt cols r "Район"))) ∧
    ((foldersOfDoc (buildDoc outName cols rows)).map
        (fun f => (nameTextOf f, subfolderNames f)) =
      (uniqFirst (rows.map (okrugOf cols))).map
        (fun o => (some o,
          (uniqFirst ((rows.filter (fun r => okrugOf cols r == o)).map
            (rayonOf cols))).map some))) := by
  refine ⟨?_, ?_, ?_, ?_⟩
  · rw [stylesOfDoc_buildDoc]
    rfl
  · exact sorted_insSortStr _
  · exact insSortStr_perm _
  · rw [foldersOfDoc_buildDoc, List.map_map,
      ← foldersOf_keys cols (styleIdsOf cols rows) rows, List.map_map]
    apply List.map_congr_left
    intro p hp
    have hnd : ((foldersOf cols (styleIdsOf cols rows) rows).map Prod.fst).Nodup := by
      rw [foldersOf_keys]
      exact uniqFirst_nodup _
    have hlk := lookup_self_of_nodup _ hnd p hp
    have hinner := foldersOf_inner cols (styleIdsOf cols rows) rows p.1
    rw [hlk] at hinner
    simp only [Option.getD_some] at hinner
    show (nameTextOf (renderOkrug p), subfolderNames (renderOkrug p)) = _
    rw [nameTextOf_renderOkrug, subfolderNames_renderOkrug, hinner]
    rfl
